import Mathlib

/-! # kvrow.hh: column codec and query engine

A shallow embedding of `src/kvrow.hh` (Masstree): `row_base<IDX>` (the
codec for field lists and change sets) and `query<R>` (emit, scanemit,
emitrow, apply_put, apply_remove), followed by theorems about them.

Conventions of the embedding:

* a buffer (`kvin`, `kvout`, the bytes of a `Str`) is a list of bytes;
  writing appends at the end, reading consumes from the front;
* machine integers are `Int`/`Nat` with explicit wraparound: `short` is
  16 bits signed, `int` (the tag `qt_` set by `begin_get1`) is 32 bits
  signed, `kvtimestamp_t` and `unsigned long` are 64 bits unsigned;
* code that is included by `kvrow.hh` but is not part of it (kvio.hh,
  kvthread.hh, log.hh, the row type, `circular_int`) is either a parameter
  (`IDX`, `threadinfo_t`, `row_t`) or a definition whose comment starts
  with "Modelled from the spec";
* calls into the collaborators that have no result the engine looks at
  (log acquire, deferred destruction, the checkpoint sink) are recorded,
  in order, in a trace of events.
-/

namespace Kvrow

/-! ## Bytes, strings and the kvio primitives -/

/-- One byte of a buffer. -/
abbrev Byte := Fin 256

/-- The byte holding `x mod 256`. -/
def byte (x : Nat) : Byte := ⟨x % 256, Nat.mod_lt x (by decide)⟩

/-- A `Str`: a run of bytes whose length is held in an `int` (`Str::len`),
so it is below `2^31`. -/
structure Str where
  s : List Byte
  len_lt : s.length < 2147483648
deriving DecidableEq

/-- The empty string `Str()`. -/
def Str.empty : Str := ⟨[], by decide⟩

/-- Value of `Str::len`. -/
def Str.len (v : Str) : Nat := v.s.length

/-- Contents of a `struct kvout`: the bytes `buf[0 .. n)` written so far. -/
abbrev kvout := List Byte

/-- Contents of a `struct kvin` set up by `kvin_init`: the bytes not yet read. -/
abbrev kvin := List Byte

/-- Conversion of an integer to `short`: the value modulo `2^16`, taken in
`[-32768, 32767]`. -/
def to_short (x : Int) : Int :=
  if x % 65536 < 32768 then x % 65536 else x % 65536 - 65536

/-- The value of an `int` expression whose mathematical result is `x`: `x`
itself when it lies in `[-2^31, 2^31)`; outside that range (signed overflow,
which C++ leaves undefined) the value modulo `2^32` taken in that range, as
two's-complement hardware leaves it. -/
def to_int (x : Int) : Int :=
  if x % 4294967296 < 2147483648 then x % 4294967296 else x % 4294967296 - 4294967296

/-- Modelled from the spec: the two bytes of a 16-bit count, low byte first
(`KVW` of kvio.hh, which is not under src/, copies the object representation
of its argument). -/
def short_bytes (n : Int) : List Byte :=
  [byte (n % 65536).toNat, byte ((n % 65536).toNat / 256)]

/-- Modelled from the spec: `KVW(kvout, n)` for a `short n` (kvio.hh is not
under src/): appends the 16-bit count to the sink. -/
def KVW_short (out : kvout) (n : Int) : kvout := out ++ short_bytes n

/-- Modelled from the spec: `KVR(kvin, n)` for a `short n` (kvio.hh is not
under src/): reads a 16-bit count; `none` when fewer than two bytes are left. -/
def KVR_short : kvin → Option (Int × kvin)
  | b0 :: b1 :: rest => some (to_short (b0.val + 256 * b1.val), rest)
  | _ => none

/-- Modelled from the spec: the bytes of a length-prefixed byte string
(`kvwrite_str` of kvio.hh, which is not under src/): the length as a 32-bit
`int`, low byte first, then the bytes themselves. -/
def str_bytes (v : Str) : List Byte :=
  [byte v.s.length, byte (v.s.length / 256), byte (v.s.length / 65536),
    byte (v.s.length / 16777216)] ++ v.s

/-- Modelled from the spec: `kvwrite_str(kvout, v)` (kvio.hh is not under
src/): appends the length-prefixed string to the sink. -/
def kvwrite_str (out : kvout) (v : Str) : kvout := out ++ str_bytes v

/-- Modelled from the spec: `kvread_str_inplace(kvin, v)` (kvio.hh is not
under src/): reads the 32-bit length, then that many bytes; `none` when the
length is negative or the input is too short. -/
def kvread_str_inplace : kvin → Option (Str × kvin)
  | b0 :: b1 :: b2 :: b3 :: rest =>
    if h : b0.val + 256 * b1.val + 65536 * b2.val + 16777216 * b3.val < 2147483648
        ∧ b0.val + 256 * b1.val + 65536 * b2.val + 16777216 * b3.val ≤ rest.length then
      some (⟨rest.take (b0.val + 256 * b1.val + 65536 * b2.val + 16777216 * b3.val),
              lt_of_le_of_lt (List.length_take_le _ _) h.1⟩,
            rest.drop (b0.val + 256 * b1.val + 65536 * b2.val + 16777216 * b3.val))
    else none
  | _ => none

/-! ## row_base<IDX> -/

/-- The index policy `IDX` of `row_base<IDX>`: the field identifier type,
its `operator<`, and the row-type-defined encoding of one field identifier
(`kvwrite_field` gives the bytes appended to the sink, `kvread_field` reads
one identifier from the input). -/
structure IDX where
  field_t : Type
  lt : field_t → field_t → Bool
  kvwrite_field : field_t → List Byte
  kvread_field : kvin → Option (field_t × kvin)

/-- Contract of the field encoding: reading gives back what was written and
leaves the bytes that follow. -/
def IDX.lawful (I : IDX) : Prop :=
  ∀ (f : I.field_t) (rest : List Byte), I.kvread_field (I.kvwrite_field f ++ rest) = some (f, rest)

/-- Source `row_base::cell_t`. -/
structure cell_t (I : IDX) where
  c_fid : I.field_t
  c_value : Str

instance (I : IDX) [DecidableEq I.field_t] : DecidableEq (cell_t I) := fun a b =>
  decidable_of_iff (a.c_fid = b.c_fid ∧ a.c_value = b.c_value)
    (by cases a; cases b; simp)

/-- Source `operator<` of `cell_t`: compares the field identifiers. -/
def cell_t.lt {I : IDX} (a b : cell_t I) : Bool := I.lt a.c_fid b.c_fid

/-- Source `row_base::change_t`. -/
abbrev change_t (I : IDX) := List (cell_t I)

/-- Source `row_base::fields_t`. -/
abbrev fields_t (I : IDX) := List I.field_t

/-- A field list is strictly increasing: each identifier is below the next. -/
def fields_sorted (I : IDX) (f : fields_t I) : Prop :=
  List.Chain' (fun a b => I.lt a b = true) f

/-- A change set is strictly increasing by field identifier. -/
def change_sorted (I : IDX) (c : change_t I) : Prop :=
  List.Chain' (fun a b => cell_t.lt a b = true) c

/-- Decision procedure for a chain of a boolean relation, by evaluation. -/
def decide_chain {α : Type} (r : α → α → Bool) :
    (l : List α) → Decidable (List.Chain' (fun a b => r a b = true) l)
  | [] => isTrue List.chain'_nil
  | [a] => isTrue (List.chain'_singleton a)
  | a :: b :: rest =>
    match h : r a b, decide_chain r (b :: rest) with
    | true, isTrue h2 => isTrue (List.chain'_cons.mpr ⟨h, h2⟩)
    | false, _ => isFalse (fun hc => Bool.false_ne_true (h.symm.trans (List.chain'_cons.mp hc).1))
    | _, isFalse h2 => isFalse (fun hc => h2 (List.chain'_cons.mp hc).2)

instance (I : IDX) (f : fields_t I) : Decidable (fields_sorted I f) :=
  decide_chain I.lt f

instance (I : IDX) (c : change_t I) : Decidable (change_sorted I c) :=
  decide_chain cell_t.lt c

/-- The bytes of a run of entries, `g` giving the bytes of one entry. -/
def entries_bytes {α : Type} (g : α → List Byte) : List α → List Byte
  | [] => []
  | x :: xs => g x ++ entries_bytes g xs

/-- How a write function of the codec ends: `exit(EXIT_FAILURE)` with the
sink as it is at that point, or a normal return with its result and the sink. -/
inductive kvw_outcome where
  | exit_failure (out : kvout)
  | returned (ret : Int) (out : kvout)
deriving DecidableEq

/-- The sink after a normal return of a write function; `none` when the
process exited. -/
def kvw_outcome.written : kvw_outcome → Option kvout
  | kvw_outcome.exit_failure _ => none
  | kvw_outcome.returned _ out => some out

/-- Body of the read loop of `kvread_fields`, `k` iterations:
`IDX::kvread_field(kvin, f[i])`. -/
def kvread_fields_loop (I : IDX) : Nat → kvin → Option (fields_t I × kvin)
  | 0, inp => some ([], inp)
  | k + 1, inp =>
    match I.kvread_field inp with
    | none => none
    | some (x, inp1) =>
      match kvread_fields_loop I k inp1 with
      | none => none
      | some (xs, inp2) => some (x :: xs, inp2)

/-- Source `row_base::kvread_fields`: reads the `short` count `n`, resizes `f` to
`n` and fills `f[0 .. n)`. Gives the return value `0`, the list and the rest
of the input. With a count that is not positive the loop runs no iteration;
what `resize` does with a negative count is not defined by `kvrow.hh`, and
the model leaves no entry. -/
def kvread_fields (I : IDX) (inp : kvin) : Option (Int × fields_t I × kvin) :=
  match KVR_short inp with
  | none => none
  | some (n, inp1) =>
    match kvread_fields_loop I n.toNat inp1 with
    | none => none
    | some (f, inp2) => some (0, f, inp2)

/-- Source `row_base::parse_fields`: `kvin_init` on the bytes of `v`, then
`kvread_fields`. -/
def parse_fields (I : IDX) (v : List Byte) : Option (Int × fields_t I) :=
  match kvread_fields I v with
  | none => none
  | some (r, f, _) => some (r, f)

/-- The test `!(f[i - 1] < f[i])` of the sortedness loop of `kvwrite_fields`. -/
def fields_unsorted_at (I : IDX) (f : fields_t I) (i : Nat) : Bool :=
  match f[i - 1]?, f[i]? with
  | some a, some b => !(I.lt a b)
  | _, _ => false

/-- Source `row_base::kvwrite_fields`: `short n = f.size()`; the loop over
`i = 1 .. n-1` exits the process at the first pair out of order; then the
count and the `n` identifiers `f[0 .. n)` are written. -/
def kvwrite_fields (I : IDX) (out : kvout) (f : fields_t I) : kvw_outcome :=
  if (List.range' 1 ((to_short f.length).toNat - 1)).any (fields_unsorted_at I f) then
    kvw_outcome.exit_failure out
  else
    kvw_outcome.returned 0
      ((List.range (to_short f.length).toNat).foldl
        (fun o i => match f[i]? with
          | some x => o ++ I.kvwrite_field x
          | none => o)
        (KVW_short out (to_short f.length)))

/-- Body of the read loop of `kvread_change`, `k` iterations:
`IDX::kvread_field(kvin, c[i].c_fid); kvread_str_inplace(kvin, c[i].c_value)`. -/
def kvread_change_loop (I : IDX) : Nat → kvin → Option (change_t I × kvin)
  | 0, inp => some ([], inp)
  | k + 1, inp =>
    match I.kvread_field inp with
    | none => none
    | some (fid, inp1) =>
      match kvread_str_inplace inp1 with
      | none => none
      | some (v, inp2) =>
        match kvread_change_loop I k inp2 with
        | none => none
        | some (cs, inp3) => some (⟨fid, v⟩ :: cs, inp3)

/-- Source `row_base::kvread_change`: reads the `short` count `n`, resizes `c` to
`n` and fills `c[0 .. n)`. -/
def kvread_change (I : IDX) (inp : kvin) : Option (Int × change_t I × kvin) :=
  match KVR_short inp with
  | none => none
  | some (n, inp1) =>
    match kvread_change_loop I n.toNat inp1 with
    | none => none
    | some (c, inp2) => some (0, c, inp2)

/-- Source `row_base::parse_change`: `kvin_init` on the bytes of `v`, then
`kvread_change`. -/
def parse_change (I : IDX) (v : List Byte) : Option (Int × change_t I) :=
  match kvread_change I v with
  | none => none
  | some (r, c, _) => some (r, c)

/-- The test `!(c[i - 1] < c[i])` of the sortedness loop of `kvwrite_change`. -/
def change_unsorted_at (I : IDX) (ch : change_t I) (i : Nat) : Bool :=
  match ch[i - 1]?, ch[i]? with
  | some a, some b => !(cell_t.lt a b)
  | _, _ => false

/-- Source `row_base::kvwrite_change`: as `kvwrite_fields`, each entry being the
field identifier followed by the length-prefixed value. -/
def kvwrite_change (I : IDX) (out : kvout) (ch : change_t I) : kvw_outcome :=
  if (List.range' 1 ((to_short ch.length).toNat - 1)).any (change_unsorted_at I ch) then
    kvw_outcome.exit_failure out
  else
    kvw_outcome.returned 0
      ((List.range (to_short ch.length).toNat).foldl
        (fun o i => match ch[i]? with
          | some x => kvwrite_str (o ++ I.kvwrite_field x.c_fid) x.c_value
          | none => o)
        (KVW_short out (to_short ch.length)))

/-- Source `row_base::make_cell`. -/
def make_cell {I : IDX} (fid : I.field_t) (value : Str) : cell_t I := ⟨fid, value⟩

/-- Source `row_base::make_put_col_request`: resets the buffer, writes the count
`short(1)`, the field identifier and the value, and returns the bytes of
the buffer. -/
def make_put_col_request (I : IDX) (_out : kvout) (fid : I.field_t) (value : Str) : List Byte :=
  kvwrite_str (KVW_short [] 1 ++ I.kvwrite_field fid) value

/-! ## Timestamps -/

/-- A `kvtimestamp_t` value, held as a natural number. -/
abbrev kvtimestamp_t := Nat

/-- Modelled from the spec: the number of `kvtimestamp_t` values (the typedef
is not under src/): the timestamp is a fixed-width unsigned counter that
wraps, taken as 64 bits wide, so `2^64`. -/
def ts_modulus : Nat := 18446744073709551616

/-- Half of the timestamp range, `2^63`. -/
def ts_half : Nat := 9223372036854775808

/-- The unsigned difference `a - b` of two timestamps, modulo `2^64`. -/
def ts_diff (a b : kvtimestamp_t) : Nat :=
  (a % ts_modulus + ts_modulus - b % ts_modulus) % ts_modulus

/-- Modelled from the spec: `circular_int<kvtimestamp_t>::less(a, b)`
(the class is not under src/): the half-range comparison, true when the
difference `a - b`, read as a signed 64-bit value, is negative. -/
def circular_int.less (a b : kvtimestamp_t) : Bool :=
  decide (ts_half ≤ ts_diff a b)

/-- Modelled from the spec: `circular_int<kvtimestamp_t>::less_equal(a, b)`
(the class is not under src/): the half-range comparison, true when the
difference `a - b`, read as a signed 64-bit value, is zero or negative. -/
def circular_int.less_equal (a b : kvtimestamp_t) : Bool :=
  decide (ts_diff a b = 0) || decide (ts_half ≤ ts_diff a b)

/-- Modelled from the spec: `a` is strictly greater than `b` in the
half-range comparison (`circular_int` is not under src/): the difference
`a - b`, read as a signed 64-bit value, is positive. -/
def circular_int.greater (a b : kvtimestamp_t) : Bool :=
  decide (0 < ts_diff a b ∧ ts_diff a b < ts_half)

/-! ## The collaborators of query<R> -/

/-- The `threadinfo` a query is applied with (kvthread.hh is not under
src/), as far as `kvrow.hh` uses it: whether `ti_log` is set, and the
timestamp generator `update_timestamp()` / `update_timestamp(x)`, each
giving the timestamp and the state of the thread afterwards. -/
structure threadinfo_t where
  TI : Type
  ti_log : TI → Bool
  update_timestamp : TI → kvtimestamp_t × TI
  update_timestamp_after : TI → kvtimestamp_t → kvtimestamp_t × TI

/-- The row type `R` of `query<R>` (the file named by
`KVDB_ROW_TYPE_INCLUDE` is not under src/), as far as `kvrow.hh` uses it.
A value of `R` stands for a row pointer `R*`; equality on `R` is pointer
equality. `col` is `col(int)`, `col_field` is `col` on a field identifier. -/
structure row_t (I : IDX) (T : threadinfo_t) where
  R : Type
  ptr_eq : DecidableEq R
  ts_ : R → kvtimestamp_t
  row_is_marker : R → Bool
  ncol : R → Nat
  col : R → Int → Str
  col_field : R → I.field_t → Str
  from_change : change_t I → kvtimestamp_t → T.TI → R
  update : R → change_t I → kvtimestamp_t → T.TI → R

instance {I : IDX} {T : threadinfo_t} (Rw : row_t I T) : DecidableEq Rw.R := Rw.ptr_eq

/-- Source `result_t` (kvproto.hh), the two values `apply_put` returns. -/
inductive result_t where
  | Inserted
  | Updated
deriving DecidableEq

/-- A call out of the query engine whose effect lies outside `kvrow.hh`. -/
inductive event (I : IDX) (R : Type) where
  | log_acquire
  | update_timestamp (ts : kvtimestamp_t)
  | update_timestamp_after (min_ts ts : kvtimestamp_t)
  | from_change (ch : change_t I) (ts : kvtimestamp_t) (made : R)
  | update (old : R) (ch : change_t I) (ts : kvtimestamp_t) (updated : R)
  | deallocate_rcu (row : R)
  | deallocate_rcu_after_update (row : R) (ch : change_t I)
  | checkpoint1 (ck : Nat) (k : Str) (row : R)

/-- The event is a deferred destruction, of either kind. -/
def event.is_deallocate {I : IDX} {R : Type} : event I R → Bool
  | event.deallocate_rcu _ => true
  | event.deallocate_rcu_after_update _ _ => true
  | _ => false

/-- The event is a plain `deallocate_rcu`. -/
def event.is_deallocate_rcu {I : IDX} {R : Type} : event I R → Bool
  | event.deallocate_rcu _ => true
  | _ => false

/-- The event is a `deallocate_rcu_after_update`. -/
def event.is_deallocate_rcu_after_update {I : IDX} {R : Type} : event I R → Bool
  | event.deallocate_rcu_after_update _ _ => true
  | _ => false

/-- The event is a call of the row's `update`. -/
def event.is_update {I : IDX} {R : Type} : event I R → Bool
  | event.update _ _ _ _ => true
  | _ => false

/-- The event is a `log->acquire()`. -/
def event.is_log_acquire {I : IDX} {R : Type} : event I R → Bool
  | event.log_acquire => true
  | _ => false

/-- The event is a call of the timestamp generator. -/
def event.is_timestamp {I : IDX} {R : Type} : event I R → Bool
  | event.update_timestamp _ => true
  | event.update_timestamp_after _ _ => true
  | _ => false

/-- Source `loginfo::query_times` (log.hh), the fields `kvrow.hh` writes. -/
structure query_times where
  epoch : Nat
  ts : kvtimestamp_t
  prev_ts : kvtimestamp_t
deriving DecidableEq

/-! ## query<R> -/

/-- Data members of `query<R>`. `kvout_` is the sink the handle points to,
`ck_` names the checkpoint state, `scan_npairs_` is an `unsigned long`. -/
structure query (I : IDX) where
  c_ : change_t I
  f_ : fields_t I
  scan_npairs_ : Nat
  qtimes_ : query_times
  key_ : Str
  kvout_ : kvout
  qt_ : Int
  ck_ : Nat
  endkey_ : Str
  val_ : Str

/-- What a call of the engine works on: the query, the thread it runs on,
the global `global_log_epoch`, and the calls made so far, oldest first. -/
structure world (I : IDX) (T : threadinfo_t) (Rw : row_t I T) where
  q : query I
  ti : T.TI
  global_log_epoch : Nat
  trace : List (event I Rw.R)

/-- The events of `w1` that were added after `w0`. -/
def events_since {I : IDX} {T : threadinfo_t} {Rw : row_t I T} (w0 w1 : world I T Rw) :
    List (event I Rw.R) :=
  w1.trace.drop w0.trace.length

def QT_None : Int := 0
def QT_Get : Int := 1
def QT_Scan : Int := 2
def QT_Ckp_Scan : Int := 3
def QT_Get1_Col0 : Int := 4
def QT_Put : Int := 4
def QT_Remove : Int := 5
def QT_MinReplay : Int := 7
def QT_Replay_Put : Int := 7
def QT_Replay_Remove : Int := 8
def QT_Replay_Modify : Int := 9

/-- Source `query_helper<R>::snapshot`: gives back the row. -/
def query_helper.snapshot {I : IDX} {T : threadinfo_t} (Rw : row_t I T) (row : Rw.R)
    (_f : fields_t I) (_ti : T.TI) : Rw.R := row

/-- Source `query::begin_get`; `none` when the request cannot be read as a field list. -/
def begin_get {I : IDX} (q : query I) (key req : Str) (kv : kvout) : Option (query I) :=
  match parse_fields I req.s with
  | none => none
  | some (_, f) => some { q with qt_ := QT_Get, key_ := key, f_ := f, kvout_ := kv }

/-- Source `query::begin_put`; `none` when the request cannot be read as a change set. -/
def begin_put {I : IDX} (q : query I) (key req : Str) : Option (query I) :=
  match parse_change I req.s with
  | none => none
  | some (_, ch) => some { q with qt_ := QT_Put, key_ := key, c_ := ch }

/-- Source `query::begin_remove`. -/
def begin_remove {I : IDX} (q : query I) (key : Str) : query I :=
  { q with qt_ := QT_Remove, key_ := key }

/-- Source `query::begin_scan`; `none` when `assert(npairs > 0)` fails or the
request cannot be read as a field list. -/
def begin_scan {I : IDX} (q : query I) (startkey : Str) (npairs : Int) (req : Str)
    (kv : kvout) : Option (query I) :=
  if 0 < npairs then
    match parse_fields I req.s with
    | none => none
    | some (_, f) =>
      some { q with qt_ := QT_Scan, key_ := startkey, f_ := f,
                    scan_npairs_ := npairs.toNat % 18446744073709551616, kvout_ := kv }
  else none

/-- Source `query::begin_checkpoint`. -/
def begin_checkpoint {I : IDX} (q : query I) (ck : Nat) (startkey endkey : Str) : query I :=
  { q with qt_ := QT_Ckp_Scan, key_ := startkey, ck_ := ck, endkey_ := endkey }

/-- Source `query::begin_get1`: `qt_ = QT_Get1_Col0 + col`, an addition of
`int`s stored in the `int qt_`. -/
def begin_get1 {I : IDX} (q : query I) (key : Str) (col : Int) : query I :=
  { q with qt_ := to_int (QT_Get1_Col0 + col), key_ := key }

/-- Source `query::get1_value`. -/
def get1_value {I : IDX} (q : query I) : Str := q.val_

/-- Source `query::query_type`. -/
def query_type {I : IDX} (q : query I) : Int := q.qt_

/-- Source `query::emit`: with an empty field list the count `(short) row->ncol()`
and every column `col(0) .. col(ncol-1)`; otherwise the count
`(short) f_.size()` and `col(f_[i])` for each entry of the field list. -/
def emit {I : IDX} {T : threadinfo_t} (Rw : row_t I T) (q : query I) (row : Rw.R) : query I :=
  if q.f_.length = 0 then
    let out1 := KVW_short q.kvout_ (to_short (Rw.ncol row))
    let out2 := (List.range (Rw.ncol row)).foldl
      (fun (o : kvout) (i : Nat) => kvwrite_str o (Rw.col row (i : Int))) out1
    { q with kvout_ := out2 }
  else
    let out1 := KVW_short q.kvout_ (to_short q.f_.length)
    let out2 := (List.range q.f_.length).foldl
      (fun o i => match q.f_[i]? with
        | some fid => kvwrite_str o (Rw.col_field row fid)
        | none => o) out1
    { q with kvout_ := out2 }

/-- The state `w` with the sink of the query replaced by `out`. -/
def world.set_kvout {I : IDX} {T : threadinfo_t} {Rw : row_t I T} (w : world I T Rw)
    (out : kvout) : world I T Rw :=
  { w with q := { w.q with kvout_ := out } }

/-- Modelled from the spec: `a < b` on the bytes of two keys (`Str`
comparison is not under src/): the order of the keys in the index, byte by
byte, a proper beginning coming first. -/
def bytes_lt : List Byte → List Byte → Bool
  | _, [] => false
  | [], _ :: _ => true
  | a :: as, b :: bs => decide (a < b) || (decide (a = b) && bytes_lt as bs)

/-- Source `query::scanemit`; `none` when `assert(qt_ == QT_Scan)` fails. -/
def scanemit {I : IDX} {T : threadinfo_t} {Rw : row_t I T} (w : world I T Rw) (k : Str)
    (v : Rw.R) : Option (Bool × world I T Rw) :=
  if Rw.row_is_marker v then some (true, w)
  else if w.q.qt_ = QT_Ckp_Scan then
    if w.q.endkey_.len ≠ 0 ∧ bytes_lt k.s w.q.endkey_.s = false then some (false, w)
    else some (true, { w with trace := w.trace ++ [event.checkpoint1 w.q.ck_ k v] })
  else if w.q.qt_ = QT_Scan then
    let q1 := { w.q with kvout_ := kvwrite_str w.q.kvout_ k }
    let q2 := emit Rw q1 (query_helper.snapshot Rw v q1.f_ w.ti)
    let n1 := (q2.scan_npairs_ + 18446744073709551615) % 18446744073709551616
    let q3 := { q2 with scan_npairs_ := n1 }
    some (decide (0 < q3.scan_npairs_), { w with q := q3 })
  else none

/-- Source `query::emitrow`; `none` when `assert(qt_ == QT_Get)` fails. -/
def emitrow {I : IDX} {T : threadinfo_t} {Rw : row_t I T} (w : world I T Rw)
    (v : Rw.R) : Option (Bool × world I T Rw) :=
  if Rw.row_is_marker v then some (false, w)
  else if QT_Get1_Col0 ≤ w.q.qt_ then
    some (true, { w with q := { w.q with val_ := Rw.col v (w.q.qt_ - QT_Get1_Col0) } })
  else if w.q.qt_ = QT_Get then
    some (true, { w with q := emit Rw w.q (query_helper.snapshot Rw v w.q.f_ w.ti) })
  else none

/-- Source `query::assign_timestamp(threadinfo*)`. -/
def assign_timestamp {I : IDX} {T : threadinfo_t} {Rw : row_t I T} (w : world I T Rw) :
    world I T Rw :=
  let r := T.update_timestamp w.ti
  let qt1 : query_times := { w.q.qtimes_ with ts := r.1, prev_ts := 0 }
  { w with ti := r.2, q := { w.q with qtimes_ := qt1 },
           trace := w.trace ++ [event.update_timestamp r.1] }

/-- Source `query::assign_timestamp(threadinfo*, kvtimestamp_t)`. -/
def assign_timestamp_after {I : IDX} {T : threadinfo_t} {Rw : row_t I T} (w : world I T Rw)
    (min_ts : kvtimestamp_t) : world I T Rw :=
  let r := T.update_timestamp_after w.ti min_ts
  let qt1 : query_times := { w.q.qtimes_ with ts := r.1, prev_ts := min_ts }
  { w with ti := r.2, q := { w.q with qtimes_ := qt1 },
           trace := w.trace ++ [event.update_timestamp_after min_ts r.1] }

/-- The block `if (loginfo* log = ti->ti_log) { log->acquire();
qtimes_.epoch = global_log_epoch; }` of `apply_put` and `apply_remove`. -/
def acquire_log {I : IDX} {T : threadinfo_t} {Rw : row_t I T} (w : world I T Rw) :
    world I T Rw :=
  if T.ti_log w.ti then
    let qt1 : query_times := { w.q.qtimes_ with epoch := w.global_log_epoch }
    { w with q := { w.q with qtimes_ := qt1 }, trace := w.trace ++ [event.log_acquire] }
  else w

/-- The block at label `insert:` of `apply_put`: `assign_timestamp(ti);
value = R::from_change(c_, qtimes_.ts, *ti); return Inserted;`. -/
def apply_put_insert {I : IDX} {T : threadinfo_t} {Rw : row_t I T} (w : world I T Rw) :
    result_t × Rw.R × world I T Rw :=
  let w1 := assign_timestamp w
  let made := Rw.from_change w1.q.c_ w1.q.qtimes_.ts w1.ti
  (result_t.Inserted, made,
    { w1 with trace := w1.trace ++ [event.from_change w1.q.c_ w1.q.qtimes_.ts made] })

/-- Source `query::apply_put`: gives the result, the row pointer left in `value`
and the state afterwards; `none` when `precondition(qt_ < QT_MinReplay)`
fails. -/
def apply_put {I : IDX} {T : threadinfo_t} {Rw : row_t I T} (w : world I T Rw)
    (value : Rw.R) (has_value : Bool) : Option (result_t × Rw.R × world I T Rw) :=
  if w.q.qt_ < QT_MinReplay then
    let w1 := acquire_log w
    if has_value = false then some (apply_put_insert w1)
    else
      let old_value := value
      let w2 := assign_timestamp_after w1 (Rw.ts_ old_value)
      if Rw.row_is_marker old_value then
        some (apply_put_insert
          { w2 with trace := w2.trace ++ [event.deallocate_rcu old_value] })
      else
        let updated := Rw.update old_value w2.q.c_ w2.q.qtimes_.ts w2.ti
        let w3 : world I T Rw :=
          { w2 with trace := w2.trace ++ [event.update old_value w2.q.c_ w2.q.qtimes_.ts updated] }
        if updated ≠ old_value then
          some (result_t.Updated, updated,
            { w3 with trace := w3.trace ++ [event.deallocate_rcu_after_update old_value w3.q.c_] })
        else some (result_t.Updated, value, w3)
  else none

/-- Source `query::apply_remove`: gives the result, the row pointer left in
`value`, the node timestamp left behind `node_ts` (`none` for a null
pointer) and the state afterwards. -/
def apply_remove {I : IDX} {T : threadinfo_t} {Rw : row_t I T} (w : world I T Rw)
    (value : Rw.R) (has_value : Bool) (node_ts : Option kvtimestamp_t) :
    Bool × Rw.R × Option kvtimestamp_t × world I T Rw :=
  if has_value = false then (false, value, node_ts, w)
  else
    let w1 := acquire_log w
    let old_value := value
    let w2 := assign_timestamp_after w1 (Rw.ts_ old_value)
    let node_ts1 : Option kvtimestamp_t :=
      match node_ts with
      | some nts =>
        if circular_int.less_equal nts w2.q.qtimes_.ts then
          some ((w2.q.qtimes_.ts + 2) % ts_modulus)
        else some nts
      | none => none
    (true, value, node_ts1,
      { w2 with trace := w2.trace ++ [event.deallocate_rcu old_value] })

/-- Source `query_scanner<R>::operator()`. -/
def query_scanner {I : IDX} {T : threadinfo_t} {Rw : row_t I T} (w : world I T Rw) (key : Str)
    (value : Rw.R) : Option (Bool × world I T Rw) :=
  scanemit w key value

/-- Modelled from the spec: the range scan of the index (not under src/)
driving the scan callback: it calls `query_scanner` on each (key, row) pair
in order and stops after the first call that returns `false`. Gives the
results of the calls made, in order, and the state afterwards; `none` when a
call fails its assertion. -/
def drive_scan {I : IDX} {T : threadinfo_t} {Rw : row_t I T} (w : world I T Rw) :
    List (Str × Rw.R) → Option (List Bool × world I T Rw)
  | [] => some ([], w)
  | p :: rest =>
    match query_scanner w p.1 p.2 with
    | none => none
    | some (false, w1) => some ([false], w1)
    | some (true, w1) =>
      match drive_scan w1 rest with
      | none => none
      | some (rs, w2) => some (true :: rs, w2)

/-- The state `w` with the query replaced by `q`. -/
def world.with_query {I : IDX} {T : threadinfo_t} {Rw : row_t I T} (w : world I T Rw)
    (q : query I) : world I T Rw :=
  { w with q := q }

/-- The state `w` after one more call, `e`. -/
def world.record {I : IDX} {T : threadinfo_t} {Rw : row_t I T} (w : world I T Rw)
    (e : event I Rw.R) : world I T Rw :=
  { w with trace := w.trace ++ [e] }

/-- Log coordination of one call that leads from `w` to `w1`. When the
thread of `w` holds a log, the first call made is `log->acquire()`, no other
one follows, and `qtimes_.epoch` has become the global log epoch; when it
holds none, no `log->acquire()` is made and `qtimes_.epoch` is as before. -/
def log_coordinated {I : IDX} {T : threadinfo_t} {Rw : row_t I T} (w w1 : world I T Rw) : Prop :=
  (T.ti_log w.ti = true →
      (∃ rest, events_since w w1 = event.log_acquire :: rest
        ∧ rest.filter event.is_log_acquire = [])
      ∧ w1.q.qtimes_.epoch = w.global_log_epoch)
    ∧ (T.ti_log w.ti = false →
        (events_since w w1).filter event.is_log_acquire = []
        ∧ w1.q.qtimes_.epoch = w.q.qtimes_.epoch)

/-- The key handed to the checkpoint sink, for a `checkpoint1` event. -/
def event.checkpoint_key {I : IDX} {R : Type} : event I R → Option Str
  | event.checkpoint1 _ k _ => some k
  | _ => none

/-- The event is a call that builds a row (`R::from_change`). -/
def event.is_from_change {I : IDX} {R : Type} : event I R → Bool
  | event.from_change _ _ _ => true
  | _ => false

/-! ## A concrete instance

An index policy, a thread and a row type to run the engine on: array rows
with 16-bit field identifiers and a per-thread timestamp counter. -/

/-- An index policy with 16-bit field identifiers, written low byte first. -/
def array_index : IDX where
  field_t := Fin 65536
  lt := fun a b => decide (a.val < b.val)
  kvwrite_field := fun f => [byte f.val, byte (f.val / 256)]
  kvread_field := fun inp =>
    match inp with
    | b0 :: b1 :: rest => some (⟨b0.val + 256 * b1.val, by omega⟩, rest)
    | _ => none

instance : DecidableEq array_index.field_t := inferInstanceAs (DecidableEq (Fin 65536))

/-- A thread: its timestamp counter and whether it holds a log. -/
structure counter_ti where
  ts_ : kvtimestamp_t
  has_log : Bool
deriving DecidableEq

/-- A thread whose generator is a counter: `update_timestamp()` gives the
counter, `update_timestamp(x)` first moves the counter to `x + 1` when it is
not after `x`. -/
def counter_thread : threadinfo_t where
  TI := counter_ti
  ti_log := fun t => t.has_log
  update_timestamp := fun t => (t.ts_, t)
  update_timestamp_after := fun t x =>
    if circular_int.less_equal t.ts_ x then
      ((x + 1) % ts_modulus, { t with ts_ := (x + 1) % ts_modulus })
    else (t.ts_, t)

/-- An array row: timestamp, marker flag and columns. -/
structure array_row where
  ts_ : kvtimestamp_t
  marker : Bool
  cols : List Str
deriving DecidableEq

/-- The columns after writing `v` to column `i`, the row growing as needed. -/
def array_row.set_col (cols : List Str) (i : Nat) (v : Str) : List Str :=
  (cols ++ List.replicate (i + 1 - cols.length) Str.empty).set i v

/-- Array rows as a row type: `from_change` and `update` build a new row. -/
def array_rows : row_t array_index counter_thread where
  R := array_row
  ptr_eq := inferInstance
  ts_ := fun r => r.ts_
  row_is_marker := fun r => r.marker
  ncol := fun r => r.cols.length
  col := fun r i => r.cols.getD i.toNat Str.empty
  col_field := fun r f => r.cols.getD f.val Str.empty
  from_change := fun ch ts _ =>
    ⟨ts, false, ch.foldl (fun cols x => array_row.set_col cols x.c_fid.val x.c_value) []⟩
  update := fun r ch ts _ =>
    ⟨ts, false, ch.foldl (fun cols x => array_row.set_col cols x.c_fid.val x.c_value) r.cols⟩

/-- A query before any `begin_*` call, writing to an empty sink. -/
def query0 : query array_index :=
  ⟨[], [], 0, ⟨0, 0, 0⟩, Str.empty, [], QT_None, 0, Str.empty, Str.empty⟩

/-- The one-byte string holding `b`. -/
def str1 (b : Byte) : Str := ⟨[b], Nat.lt_of_sub_eq_succ rfl⟩

/-- The field identifier `n mod 2^16` of the array index. -/
def fld (n : Nat) : array_index.field_t := ⟨n % 65536, Nat.mod_lt n (by decide)⟩

/-- A put of `[(2, "b"), (5, "z")]` on a thread that holds a log and whose
counter is at 2; the global log epoch is 7 and nothing has been called yet. -/
def world0 : world array_index counter_thread array_rows :=
  ⟨{ query0 with qt_ := QT_Put, c_ := [⟨fld 2, str1 98⟩, ⟨fld 5, str1 122⟩] }, ⟨2, true⟩, 7, []⟩

/-- A marker row with timestamp 10. -/
def marker10 : array_row := ⟨10, true, []⟩

/-- A row with timestamp 10 and the columns `"a"`, `"c"`, `"e"`. -/
def row10 : array_row := ⟨10, false, [str1 97, str1 99, str1 101]⟩

/-- A row with 32768 empty columns. -/
def wide_row : array_row := ⟨10, false, List.replicate 32768 Str.empty⟩

/-- A get of all columns, writing to an empty sink. -/
def get_world : world array_index counter_thread array_rows :=
  ⟨{ query0 with qt_ := QT_Get }, ⟨2, true⟩, 7, []⟩

/-- A get of the columns 2 and 0, in that order, writing to an empty sink. -/
def get_world_fields : world array_index counter_thread array_rows :=
  ⟨{ query0 with qt_ := QT_Get, f_ := [fld 2, fld 0] }, ⟨2, true⟩, 7, []⟩

/-- The world `world0` on a thread that holds no log. -/
def world_nolog : world array_index counter_thread array_rows :=
  ⟨world0.q, ⟨2, false⟩, 7, []⟩

/-- A request holding the empty field list: the count 0. -/
def req_empty : Str := ⟨[0, 0], by decide⟩

/-- A scan of at most two pairs from key `"a"`, all columns, writing to an
empty sink. -/
def scan_query : query array_index :=
  { query0 with qt_ := QT_Scan, key_ := str1 97, f_ := [], scan_npairs_ := 2, kvout_ := [] }

/-- A checkpoint scan from key `"a"` with end key `"m"`, on checkpoint
state 5. -/
def ckp_world : world array_index counter_thread array_rows :=
  ⟨begin_checkpoint query0 5 (str1 97) (str1 109), ⟨2, true⟩, 7, []⟩

/-- The rows of the keys `"a"`, `"k"`, `"n"`, none of them a marker. -/
def akn_pairs : List (Str × array_rows.R) :=
  [(str1 97, row10), (str1 107, row10), (str1 110, row10)]

end Kvrow

namespace Kvrow

/-! ## Lemmas on the kvio primitives -/

theorem to_short_of_le (n : Nat) (h : n ≤ 32767) : to_short (n : Int) = (n : Int) := by
  unfold to_short
  split <;> omega

theorem to_short_toNat_of_le (n : Nat) (h : n ≤ 32767) : (to_short (n : Int)).toNat = n := by
  rw [to_short_of_le n h]; exact Int.toNat_ofNat n

theorem to_short_range (x : Int) : -32768 ≤ to_short x ∧ to_short x ≤ 32767 := by
  unfold to_short
  split <;> omega

theorem KVR_short_short_bytes (n : Int) (h1 : -32768 ≤ n) (h2 : n ≤ 32767) (rest : List Byte) :
    KVR_short (short_bytes n ++ rest) = some (n, rest) := by
  have key : to_short (((((n % 65536).toNat % 256 : Nat)) : Int)
      + 256 * ((((n % 65536).toNat / 256 % 256 : Nat)) : Int)) = n := by
    unfold to_short
    split <;> omega
  simp only [short_bytes, KVR_short, List.cons_append, List.nil_append, byte, key]

theorem kvread_str_str_bytes (v : Str) (rest : List Byte) :
    kvread_str_inplace (str_bytes v ++ rest) = some (v, rest) := by
  obtain ⟨s, hs⟩ := v
  have hlen : (s.length % 256) + 256 * (s.length / 256 % 256) + 65536 * (s.length / 65536 % 256)
      + 16777216 * (s.length / 16777216 % 256) = s.length := by omega
  simp only [str_bytes, kvread_str_inplace, List.cons_append, List.nil_append, byte, hlen]
  rw [dif_pos ⟨hs, by simp⟩]
  simp

/-! ## Lemmas on the loops of the codec -/

theorem entries_bytes_append {α : Type} (g : α → List Byte) (l1 l2 : List α) :
    entries_bytes g (l1 ++ l2) = entries_bytes g l1 ++ entries_bytes g l2 := by
  induction l1 with
  | nil => rfl
  | cons x xs ih => simp [entries_bytes, ih]

theorem foldl_range_entries {α : Type} (g : α → List Byte) (l : List α)
    (body : List Byte → Nat → List Byte)
    (hbody : ∀ o i (h : i < l.length), body o i = o ++ g l[i]) (init : List Byte) :
    ∀ k, k ≤ l.length →
      (List.range k).foldl body init = init ++ entries_bytes g (l.take k) := by
  intro k
  induction k with
  | zero => intro _; simp [entries_bytes]
  | succ k ih =>
    intro hk
    have hlt : k < l.length := hk
    rw [List.range_succ, List.foldl_append, ih (Nat.le_of_lt hlt), List.take_succ,
      List.getElem?_eq_getElem hlt, entries_bytes_append]
    simp only [List.foldl_cons, List.foldl_nil, hbody _ k hlt,
      Option.toList, entries_bytes, List.append_nil, List.append_assoc]

theorem foldl_range_cols (g : Nat → List Byte) (step : List Byte → Nat → List Byte)
    (hstep : ∀ o i, step o i = o ++ g i) (init : List Byte) :
    ∀ k, (List.range k).foldl step init = init ++ entries_bytes g (List.range k) := by
  intro k
  induction k with
  | zero => simp [entries_bytes]
  | succ k ih =>
    rw [List.range_succ, List.foldl_append, ih]
    simp [entries_bytes_append, entries_bytes, hstep]

theorem any_unsorted_eq_false_iff {α : Type} (r : α → α → Bool) (l : List α) (p : Nat → Bool)
    (hp : ∀ i (h0 : i < l.length) (h1 : i + 1 < l.length), p (i + 1) = !(r l[i] l[i + 1])) :
    (List.range' 1 (l.length - 1)).any p = false
      ↔ List.Chain' (fun a b => r a b = true) l := by
  rw [List.any_eq_false, List.chain'_iff_get]
  constructor
  · intro h i hi
    have h1 := h (i + 1) (List.mem_range'_1.mpr ⟨by omega, by omega⟩)
    rw [hp i (by omega) (by omega)] at h1
    simpa using h1
  · intro h i hi
    obtain ⟨h1, h2⟩ := List.mem_range'_1.mp hi
    obtain ⟨j, rfl⟩ : ∃ j, i = j + 1 := ⟨i - 1, by omega⟩
    have h3 := h j (by omega)
    rw [hp j (by omega) (by omega)]
    simpa using h3

theorem fields_unsorted_at_succ (I : IDX) (f : fields_t I) (i : Nat) (h0 : i < f.length)
    (h1 : i + 1 < f.length) : fields_unsorted_at I f (i + 1) = !(I.lt f[i] f[i + 1]) := by
  simp only [fields_unsorted_at, Nat.add_sub_cancel, List.getElem?_eq_getElem h0,
    List.getElem?_eq_getElem h1]

theorem change_unsorted_at_succ (I : IDX) (ch : change_t I) (i : Nat) (h0 : i < ch.length)
    (h1 : i + 1 < ch.length) :
    change_unsorted_at I ch (i + 1) = !(cell_t.lt ch[i] ch[i + 1]) := by
  simp only [change_unsorted_at, Nat.add_sub_cancel, List.getElem?_eq_getElem h0,
    List.getElem?_eq_getElem h1]

theorem kvread_fields_loop_entries (I : IDX) (hI : I.lawful) (f : fields_t I) (rest : List Byte) :
    kvread_fields_loop I f.length (entries_bytes I.kvwrite_field f ++ rest) = some (f, rest) := by
  induction f with
  | nil => rfl
  | cons x xs ih =>
    simp only [List.length_cons, kvread_fields_loop, entries_bytes, List.append_assoc, hI x, ih]

theorem kvread_change_loop_entries (I : IDX) (hI : I.lawful) (ch : change_t I)
    (rest : List Byte) :
    kvread_change_loop I ch.length
        (entries_bytes (fun x => I.kvwrite_field x.c_fid ++ str_bytes x.c_value) ch ++ rest)
      = some (ch, rest) := by
  induction ch with
  | nil => rfl
  | cons x xs ih =>
    simp only [List.length_cons, kvread_change_loop, entries_bytes, List.append_assoc, hI x.c_fid,
      kvread_str_str_bytes, ih]

theorem kvwrite_fields_sorted (I : IDX) (out : kvout) (f : fields_t I)
    (hf : fields_sorted I f) (hl : f.length ≤ 32767) :
    kvwrite_fields I out f
      = kvw_outcome.returned 0
          (out ++ short_bytes (f.length : Int) ++ entries_bytes I.kvwrite_field f) := by
  have hany := (any_unsorted_eq_false_iff I.lt f _ (fields_unsorted_at_succ I f)).mpr hf
  unfold kvwrite_fields
  rw [to_short_toNat_of_le _ hl, to_short_of_le _ hl, hany]
  rw [foldl_range_entries I.kvwrite_field f _
    (fun o i h => by simp only [List.getElem?_eq_getElem h]) _ f.length (le_refl _),
    List.take_length]
  rfl

theorem kvwrite_change_sorted (I : IDX) (out : kvout) (ch : change_t I)
    (hc : change_sorted I ch) (hl : ch.length ≤ 32767) :
    kvwrite_change I out ch
      = kvw_outcome.returned 0
          (out ++ short_bytes (ch.length : Int)
            ++ entries_bytes (fun x => I.kvwrite_field x.c_fid ++ str_bytes x.c_value) ch) := by
  have hany := (any_unsorted_eq_false_iff cell_t.lt ch _ (change_unsorted_at_succ I ch)).mpr hc
  unfold kvwrite_change
  rw [to_short_toNat_of_le _ hl, to_short_of_le _ hl, hany]
  rw [foldl_range_entries (fun x => I.kvwrite_field x.c_fid ++ str_bytes x.c_value) ch _
    (fun o i h => by simp only [List.getElem?_eq_getElem h, kvwrite_str, List.append_assoc])
    _ ch.length (le_refl _), List.take_length]
  rfl

theorem kvwrite_fields_unsorted (I : IDX) (out : kvout) (f : fields_t I)
    (hf : ¬ fields_sorted I f) (hl : f.length ≤ 32767) :
    kvwrite_fields I out f = kvw_outcome.exit_failure out := by
  have hany : (List.range' 1 (f.length - 1)).any (fields_unsorted_at I f) = true := by
    by_contra h
    exact hf ((any_unsorted_eq_false_iff I.lt f _ (fields_unsorted_at_succ I f)).mp
      (Bool.eq_false_iff.mpr h))
  unfold kvwrite_fields
  rw [to_short_toNat_of_le _ hl, if_pos hany]

theorem kvwrite_change_unsorted (I : IDX) (out : kvout) (ch : change_t I)
    (hc : ¬ change_sorted I ch) (hl : ch.length ≤ 32767) :
    kvwrite_change I out ch = kvw_outcome.exit_failure out := by
  have hany : (List.range' 1 (ch.length - 1)).any (change_unsorted_at I ch) = true := by
    by_contra h
    exact hc ((any_unsorted_eq_false_iff cell_t.lt ch _ (change_unsorted_at_succ I ch)).mp
      (Bool.eq_false_iff.mpr h))
  unfold kvwrite_change
  rw [to_short_toNat_of_le _ hl, if_pos hany]

theorem parse_fields_of_steps (I : IDX) (v : List Byte) (n : Int) (inp1 inp2 : kvin)
    (f : fields_t I) (h : KVR_short v = some (n, inp1))
    (hloop : kvread_fields_loop I n.toNat inp1 = some (f, inp2)) :
    parse_fields I v = some (0, f) := by
  unfold parse_fields kvread_fields
  rw [h]
  simp only []
  rw [hloop]

theorem parse_change_of_steps (I : IDX) (v : List Byte) (n : Int) (inp1 inp2 : kvin)
    (ch : change_t I) (h : KVR_short v = some (n, inp1))
    (hloop : kvread_change_loop I n.toNat inp1 = some (ch, inp2)) :
    parse_change I v = some (0, ch) := by
  unfold parse_change kvread_change
  rw [h]
  simp only []
  rw [hloop]

theorem parse_fields_entries (I : IDX) (hI : I.lawful) (f : fields_t I) (hl : f.length ≤ 32767) :
    parse_fields I (short_bytes (f.length : Int) ++ entries_bytes I.kvwrite_field f)
      = some (0, f) := by
  have h := kvread_fields_loop_entries I hI f []
  rw [List.append_nil] at h
  exact parse_fields_of_steps I _ (f.length : Int) _ [] f
    (KVR_short_short_bytes _ (by omega) (by omega) _) h

theorem parse_change_entries (I : IDX) (hI : I.lawful) (ch : change_t I)
    (hl : ch.length ≤ 32767) :
    parse_change I (short_bytes (ch.length : Int)
        ++ entries_bytes (fun x => I.kvwrite_field x.c_fid ++ str_bytes x.c_value) ch)
      = some (0, ch) := by
  have h := kvread_change_loop_entries I hI ch []
  rw [List.append_nil] at h
  exact parse_change_of_steps I _ (ch.length : Int) _ [] ch
    (KVR_short_short_bytes _ (by omega) (by omega) _) h

theorem array_index_lawful : array_index.lawful := by
  intro f rest
  obtain ⟨n, hn⟩ := f
  have h : n % 256 + 256 * (n / 256 % 256) = n := by omega
  simp only [array_index, byte, List.cons_append, List.nil_append, h]

theorem to_short_32768 : to_short ((32768 : Nat) : Int) = -32768 := by decide

theorem kvwrite_fields_length_32768 (I : IDX) (out : kvout) (f : fields_t I)
    (h : f.length = 32768) :
    kvwrite_fields I out f = kvw_outcome.returned 0 (KVW_short out (-32768)) := by
  unfold kvwrite_fields
  rw [h, to_short_32768]
  rfl

theorem written_returned (r : Int) (x : kvout) : (kvw_outcome.returned r x).written = some x :=
  rfl

theorem parse_fields_KVW_32768 :
    parse_fields array_index (KVW_short [] (-32768)) = some (0, []) := by decide

theorem round_trip_length_32768 (f : fields_t array_index) (h : f.length = 32768) :
    (kvwrite_fields array_index [] f).written.bind (parse_fields array_index) = some (0, [])
      ∧ (kvwrite_fields array_index [] f).written.bind (parse_fields array_index)
          ≠ some (0, f) := by
  rw [kvwrite_fields_length_32768 array_index [] f h, written_returned, Option.some_bind,
    parse_fields_KVW_32768]
  refine ⟨rfl, ?_⟩
  intro h1
  have h2 : f = [] := by
    have h3 := Option.some.inj h1
    exact (congrArg Prod.snd h3).symm
  rw [h2] at h
  exact absurd h (by decide)

theorem fields_sorted_range (n : Nat) (hn : n ≤ 65536) :
    fields_sorted array_index ((List.range' 0 n).map fld) := by
  unfold fields_sorted
  rw [List.chain'_map]
  apply List.Pairwise.chain'
  refine (List.pairwise_lt_range' 0 n).imp_of_mem ?_
  intro a b ha hb hab
  have ha1 := (List.mem_range'_1.mp ha).2
  have hb1 := (List.mem_range'_1.mp hb).2
  simp only [array_index, fld, decide_eq_true_eq]
  omega

theorem not_fields_sorted_repeat (x : array_index.field_t) (rest : fields_t array_index) :
    ¬ fields_sorted array_index (x :: x :: rest) := by
  unfold fields_sorted
  rw [List.chain'_cons]
  intro h
  have h1 := h.1
  simp [array_index] at h1

/-! ## The column codec: round trip and the sortedness check -/

/-- C1 (amended): for a lawful field encoding, a change set that is strictly
increasing by field id and has at most 32767 entries is read back by
`parse_change` from the bytes `kvwrite_change` produced for it, and a strictly
increasing field list of at most 32767 entries is read back by `parse_fields`
from the bytes `kvwrite_fields` produced for it. -/
theorem codec_round_trip (I : IDX) (hI : I.lawful) (ch : change_t I) (f : fields_t I)
    (hch : change_sorted I ch) (hcl : ch.length ≤ 32767)
    (hf : fields_sorted I f) (hfl : f.length ≤ 32767) :
    (kvwrite_change I [] ch).written.bind (parse_change I) = some (0, ch)
      ∧ (kvwrite_fields I [] f).written.bind (parse_fields I) = some (0, f) := by
  constructor
  · rw [kvwrite_change_sorted I [] ch hch hcl, written_returned, Option.some_bind,
      List.nil_append]
    exact parse_change_entries I hI ch hcl
  · rw [kvwrite_fields_sorted I [] f hf hfl, written_returned, Option.some_bind,
      List.nil_append]
    exact parse_fields_entries I hI f hfl

/-- Witness of C1: the change set `[(2, "b"), (5, "z")]` and the field list
`[2, 5]` of the array index. -/
theorem codec_round_trip_witness :
    array_index.lawful
      ∧ change_sorted array_index [⟨fld 2, str1 98⟩, ⟨fld 5, str1 122⟩]
      ∧ fields_sorted array_index [fld 2, fld 5]
      ∧ (kvwrite_change array_index [] [⟨fld 2, str1 98⟩, ⟨fld 5, str1 122⟩]).written.bind
            (parse_change array_index)
          = some (0, [⟨fld 2, str1 98⟩, ⟨fld 5, str1 122⟩])
      ∧ (kvwrite_fields array_index [] [fld 2, fld 5]).written.bind (parse_fields array_index)
          = some (0, [fld 2, fld 5]) :=
  ⟨array_index_lawful, by decide, by decide,
    codec_round_trip array_index array_index_lawful
      [⟨fld 2, str1 98⟩, ⟨fld 5, str1 122⟩] [fld 2, fld 5]
      (by decide) (by decide) (by decide) (by decide)⟩

/-- Counterexample to C1 as stated: the strictly increasing field list
`0, 1, ..., 32767` has 32768 entries, `short n = f.size()` is `-32768`, so
`kvwrite_fields` writes that count and no entry, and `parse_fields` reads
back the empty list. -/
theorem round_trip_fails_at_32768 :
    fields_sorted array_index ((List.range' 0 32768).map fld)
      ∧ (kvwrite_fields array_index [] ((List.range' 0 32768).map fld)).written.bind
            (parse_fields array_index) = some (0, [])
      ∧ (kvwrite_fields array_index [] ((List.range' 0 32768).map fld)).written.bind
            (parse_fields array_index) ≠ some (0, (List.range' 0 32768).map fld) :=
  ⟨fields_sorted_range 32768 (by decide),
    round_trip_length_32768 _ (by rw [List.length_map, List.length_range'])⟩

/-- C2 (amended): a change set or field list of at most 32767 entries that is
not strictly increasing by field id makes `kvwrite_change` / `kvwrite_fields`
exit, the sink being exactly as it was before the call: neither the count nor
any entry has been written. -/
theorem kvwrite_unsorted_exits (I : IDX) (out : kvout) (ch : change_t I) (f : fields_t I)
    (hch : ¬ change_sorted I ch) (hcl : ch.length ≤ 32767)
    (hf : ¬ fields_sorted I f) (hfl : f.length ≤ 32767) :
    kvwrite_change I out ch = kvw_outcome.exit_failure out
      ∧ kvwrite_fields I out f = kvw_outcome.exit_failure out :=
  ⟨kvwrite_change_unsorted I out ch hch hcl, kvwrite_fields_unsorted I out f hf hfl⟩

/-- Witness of C2: two equal adjacent field ids, and a descending pair. -/
theorem kvwrite_unsorted_exits_witness :
    ¬ change_sorted array_index [⟨fld 5, str1 98⟩, ⟨fld 5, str1 122⟩]
      ∧ ¬ fields_sorted array_index [fld 1, fld 7, fld 3]
      ∧ kvwrite_change array_index [byte 9] [⟨fld 5, str1 98⟩, ⟨fld 5, str1 122⟩]
          = kvw_outcome.exit_failure [byte 9]
      ∧ kvwrite_fields array_index [byte 9] [fld 1, fld 7, fld 3]
          = kvw_outcome.exit_failure [byte 9] :=
  ⟨by decide, by decide,
    kvwrite_unsorted_exits array_index [byte 9]
      [⟨fld 5, str1 98⟩, ⟨fld 5, str1 122⟩] [fld 1, fld 7, fld 3]
      (by decide) (by decide) (by decide) (by decide)⟩

/-- Counterexample to C2 as stated: a field list of 32768 equal identifiers
is not strictly increasing, yet `short n = f.size()` is `-32768`, the
sortedness loop runs no iteration, and `kvwrite_fields` returns `0` having
written the count to the sink. -/
theorem kvwrite_unsorted_returns_at_32768 :
    ¬ fields_sorted array_index (fld 0 :: fld 0 :: List.replicate 32766 (fld 0))
      ∧ kvwrite_fields array_index [] (fld 0 :: fld 0 :: List.replicate 32766 (fld 0))
          = kvw_outcome.returned 0 (KVW_short [] (-32768)) :=
  ⟨not_fields_sorted_repeat _ _,
    kvwrite_fields_length_32768 array_index [] _
      (by rw [List.length_cons, List.length_cons, List.length_replicate])⟩

/-! ## Lemmas on the trace -/

theorem drop_trace_append {α : Type} (l1 l2 : List α) : (l1 ++ l2).drop l1.length = l2 := by
  induction l1 with
  | nil => rfl
  | cons x xs ih => simp [ih]

theorem acquire_log_ti {I : IDX} {T : threadinfo_t} {Rw : row_t I T} (w : world I T Rw) :
    (acquire_log w).ti = w.ti := by
  unfold acquire_log
  split <;> rfl

theorem acquire_log_c {I : IDX} {T : threadinfo_t} {Rw : row_t I T} (w : world I T Rw) :
    (acquire_log w).q.c_ = w.q.c_ := by
  unfold acquire_log
  split <;> rfl

theorem acquire_log_trace {I : IDX} {T : threadinfo_t} {Rw : row_t I T} (w : world I T Rw) :
    (acquire_log w).trace
      = w.trace ++ (if T.ti_log w.ti then [event.log_acquire] else []) := by
  unfold acquire_log
  split <;> simp

/-! ## apply_put and apply_remove -/

/-- C3: for a live query (`qt_ < QT_MinReplay`) and any thread, `apply_put`
with `has_value = false` returns `Inserted`, leaves in the slot the row
`R::from_change(c_, qtimes_.ts, *ti)` built from the query's change set and
the timestamp `ti->update_timestamp()` assigned to `qtimes_.ts`, leaves
`qtimes_.prev_ts = 0`, and the calls it makes include no deferred
destruction. -/
theorem apply_put_empty_slot {I : IDX} {T : threadinfo_t} {Rw : row_t I T}
    (w : world I T Rw) (value : Rw.R) (h : w.q.qt_ < QT_MinReplay) :
    ∃ w1 : world I T Rw,
      apply_put w value false
          = some (result_t.Inserted, Rw.from_change w.q.c_ w1.q.qtimes_.ts w1.ti, w1)
        ∧ w1.q.qtimes_.ts = (T.update_timestamp w.ti).1
        ∧ w1.ti = (T.update_timestamp w.ti).2
        ∧ w1.q.qtimes_.prev_ts = 0
        ∧ (events_since w w1).filter event.is_deallocate = [] := by
  refine ⟨(apply_put_insert (acquire_log w)).2.2, ?_, ?_, ?_, ?_, ?_⟩
  · unfold apply_put
    rw [if_pos h]
    simp only [apply_put_insert, assign_timestamp, acquire_log_c, acquire_log_ti, if_true]
  · simp only [apply_put_insert, assign_timestamp, acquire_log_ti]
  · simp only [apply_put_insert, assign_timestamp, acquire_log_ti]
  · simp only [apply_put_insert, assign_timestamp]
  · simp only [events_since, apply_put_insert, assign_timestamp, acquire_log_trace,
      List.append_assoc, drop_trace_append]
    split <;> simp [event.is_deallocate]

/-- Witness of C3: the put of `world0` on an empty slot. -/
theorem apply_put_empty_slot_witness :
    world0.q.qt_ < QT_MinReplay
      ∧ ∃ w1 : world array_index counter_thread array_rows,
          apply_put world0 row10 false
              = some (result_t.Inserted,
                  array_rows.from_change world0.q.c_ w1.q.qtimes_.ts w1.ti, w1)
            ∧ w1.q.qtimes_.ts = (counter_thread.update_timestamp world0.ti).1
            ∧ w1.ti = (counter_thread.update_timestamp world0.ti).2
            ∧ w1.q.qtimes_.prev_ts = 0
            ∧ (events_since world0 w1).filter event.is_deallocate = [] :=
  ⟨by decide, apply_put_empty_slot world0 row10 (by decide)⟩

/-- C4: for a live query and an existing row that is not a marker,
`apply_put` with `has_value = true` returns `Updated`; afterwards
`qtimes_.prev_ts` is the `ts_` the row had, `qtimes_.ts` is
`ti->update_timestamp(ts_)`, and among the calls made there is exactly one
call of the row's `update`, on that row with the query's change set and the
new `qtimes_.ts`. -/
theorem apply_put_existing_row {I : IDX} {T : threadinfo_t} {Rw : row_t I T}
    (w : world I T Rw) (old_value : Rw.R) (h : w.q.qt_ < QT_MinReplay)
    (hm : Rw.row_is_marker old_value = false) :
    ∃ (slot : Rw.R) (w1 : world I T Rw),
      apply_put w old_value true = some (result_t.Updated, slot, w1)
        ∧ w1.q.qtimes_.prev_ts = Rw.ts_ old_value
        ∧ w1.q.qtimes_.ts = (T.update_timestamp_after w.ti (Rw.ts_ old_value)).1
        ∧ (events_since w w1).filter event.is_update
            = [event.update old_value w.q.c_ w1.q.qtimes_.ts
                (Rw.update old_value w.q.c_ w1.q.qtimes_.ts w1.ti)] := by
  unfold apply_put
  rw [if_pos h]
  simp only [hm, Bool.true_eq_false, if_false, Bool.false_eq_true]
  split
  · refine ⟨_, _, rfl, ?_, ?_, ?_⟩
    · simp only [assign_timestamp_after]
    · simp only [assign_timestamp_after, acquire_log_ti]
    · simp only [events_since, assign_timestamp_after, acquire_log_trace, acquire_log_c,
        acquire_log_ti, List.append_assoc, drop_trace_append]
      split <;> simp [event.is_update]
  · refine ⟨_, _, rfl, ?_, ?_, ?_⟩
    · simp only [assign_timestamp_after]
    · simp only [assign_timestamp_after, acquire_log_ti]
    · simp only [events_since, assign_timestamp_after, acquire_log_trace, acquire_log_c,
        acquire_log_ti, List.append_assoc, drop_trace_append]
      split <;> simp [event.is_update]

/-- Witness of C4: the put of `world0` on the row `row10`. -/
theorem apply_put_existing_row_witness :
    world0.q.qt_ < QT_MinReplay ∧ array_rows.row_is_marker row10 = false
      ∧ ∃ (slot : array_rows.R) (w1 : world array_index counter_thread array_rows),
          apply_put world0 row10 true = some (result_t.Updated, slot, w1)
            ∧ w1.q.qtimes_.prev_ts = array_rows.ts_ row10
            ∧ w1.q.qtimes_.ts
                = (counter_thread.update_timestamp_after world0.ti (array_rows.ts_ row10)).1
            ∧ (events_since world0 w1).filter event.is_update
                = [event.update row10 world0.q.c_ w1.q.qtimes_.ts
                    (array_rows.update row10 world0.q.c_ w1.q.qtimes_.ts w1.ti)] :=
  ⟨by decide, by decide, apply_put_existing_row world0 row10 (by decide) (by decide)⟩

/-- C5 (amended): for a live query and a slot holding a marker row,
`apply_put` with `has_value = true` returns `Inserted`, leaves in the slot the
row `R::from_change(c_, qtimes_.ts, *ti)`, and ends with `qtimes_.prev_ts = 0`
and with `qtimes_.ts` the value `ti->update_timestamp()` gives after the thread
has served `ti->update_timestamp(marker->ts_)`; among the calls made there is
exactly one deferred destruction, `deallocate_rcu` of the marker, and no call
of `update`. -/
theorem apply_put_marker {I : IDX} {T : threadinfo_t} {Rw : row_t I T}
    (w : world I T Rw) (marker : Rw.R) (h : w.q.qt_ < QT_MinReplay)
    (hm : Rw.row_is_marker marker = true) :
    ∃ w1 : world I T Rw,
      apply_put w marker true
          = some (result_t.Inserted, Rw.from_change w.q.c_ w1.q.qtimes_.ts w1.ti, w1)
        ∧ w1.q.qtimes_.prev_ts = 0
        ∧ w1.q.qtimes_.ts
            = (T.update_timestamp (T.update_timestamp_after w.ti (Rw.ts_ marker)).2).1
        ∧ w1.ti = (T.update_timestamp (T.update_timestamp_after w.ti (Rw.ts_ marker)).2).2
        ∧ (events_since w w1).filter event.is_deallocate = [event.deallocate_rcu marker]
        ∧ (events_since w w1).filter event.is_update = [] := by
  refine ⟨(apply_put_insert
    { assign_timestamp_after (acquire_log w) (Rw.ts_ marker) with
      trace := (assign_timestamp_after (acquire_log w) (Rw.ts_ marker)).trace
        ++ [event.deallocate_rcu marker] }).2.2, ?_, ?_, ?_, ?_, ?_, ?_⟩
  · unfold apply_put
    rw [if_pos h]
    simp only [hm, Bool.true_eq_false, if_false, if_true]
    simp only [apply_put_insert, assign_timestamp, assign_timestamp_after, acquire_log_c]
  · simp only [apply_put_insert, assign_timestamp]
  · simp only [apply_put_insert, assign_timestamp, assign_timestamp_after, acquire_log_ti]
  · simp only [apply_put_insert, assign_timestamp, assign_timestamp_after, acquire_log_ti]
  · simp only [events_since, apply_put_insert, assign_timestamp, assign_timestamp_after,
      acquire_log_trace, List.append_assoc, drop_trace_append]
    split <;> simp [event.is_deallocate]
  · simp only [events_since, apply_put_insert, assign_timestamp, assign_timestamp_after,
      acquire_log_trace, List.append_assoc, drop_trace_append]
    split <;> simp [event.is_update]

/-- Witness of C5: the put of `world0` on the marker `marker10`. -/
theorem apply_put_marker_witness :
    world0.q.qt_ < QT_MinReplay ∧ array_rows.row_is_marker marker10 = true
      ∧ ∃ w1 : world array_index counter_thread array_rows,
          apply_put world0 marker10 true
              = some (result_t.Inserted,
                  array_rows.from_change world0.q.c_ w1.q.qtimes_.ts w1.ti, w1)
            ∧ w1.q.qtimes_.prev_ts = 0
            ∧ w1.q.qtimes_.ts
                = (counter_thread.update_timestamp
                    (counter_thread.update_timestamp_after world0.ti
                      (array_rows.ts_ marker10)).2).1
            ∧ w1.ti
                = (counter_thread.update_timestamp
                    (counter_thread.update_timestamp_after world0.ti
                      (array_rows.ts_ marker10)).2).2
            ∧ (events_since world0 w1).filter event.is_deallocate
                = [event.deallocate_rcu marker10]
            ∧ (events_since world0 w1).filter event.is_update = [] :=
  ⟨by decide, by decide, apply_put_marker world0 marker10 (by decide) (by decide)⟩

/-- Counterexample to C5 as stated: on a thread whose counter is at 2, the put
on a marker with timestamp 10 ends with `qtimes_.ts = 11`, the put on the empty
slot with `qtimes_.ts = 2`; the rows installed carry these timestamps and
differ as well. -/
theorem marker_put_differs_from_empty_slot :
    world0.q.qt_ < QT_MinReplay ∧ array_rows.row_is_marker marker10 = true
      ∧ (apply_put world0 marker10 true).map (fun r => r.2.2.q.qtimes_) = some ⟨7, 11, 0⟩
      ∧ (apply_put world0 marker10 false).map (fun r => r.2.2.q.qtimes_) = some ⟨7, 2, 0⟩
      ∧ (apply_put world0 marker10 true).map (fun r => r.2.1)
          ≠ (apply_put world0 marker10 false).map (fun r => r.2.1) := by
  refine ⟨by decide, by decide, by decide, by decide, by decide⟩

/-- C6: `apply_remove` with `has_value = false` returns `false` and leaves
everything as it was: the slot pointer, the node timestamp, and the whole
state (the query with its timestamp pair and epoch, the thread with its
timestamp generator, and the calls made: no log acquire, no deferred
destruction). -/
theorem apply_remove_empty_slot {I : IDX} {T : threadinfo_t} {Rw : row_t I T}
    (w : world I T Rw) (value : Rw.R) (node_ts : Option kvtimestamp_t) :
    apply_remove w value false node_ts = (false, value, node_ts, w) := by
  unfold apply_remove
  rw [if_pos rfl]

/-- C7: for an existing row, marker or not, `apply_remove` with
`has_value = true` returns `true`, leaves the slot pointer as it was, leaves
`qtimes_.prev_ts` equal to the `ts_` of that row, and among the calls made
there is exactly one deferred destruction, `deallocate_rcu` of the row that
is in the slot. -/
theorem apply_remove_existing_row {I : IDX} {T : threadinfo_t} {Rw : row_t I T}
    (w : world I T Rw) (value : Rw.R) (node_ts : Option kvtimestamp_t) :
    (apply_remove w value true node_ts).1 = true
      ∧ (apply_remove w value true node_ts).2.1 = value
      ∧ (apply_remove w value true node_ts).2.2.2.q.qtimes_.prev_ts = Rw.ts_ value
      ∧ (events_since w (apply_remove w value true node_ts).2.2.2).filter event.is_deallocate
          = [event.deallocate_rcu value] := by
  refine ⟨rfl, rfl, rfl, ?_⟩
  simp only [events_since, apply_remove, Bool.true_eq_false, if_false, assign_timestamp_after,
    acquire_log_trace, List.append_assoc, drop_trace_append]
  split <;> simp [event.is_deallocate]

/-! ## The node timestamp of apply_remove -/

theorem less_equal_iff_not_less (a b : kvtimestamp_t) :
    circular_int.less_equal a b = true
      ↔ ¬ (circular_int.less b a = true ∧ ts_diff a b ≠ ts_half) := by
  simp only [circular_int.less_equal, circular_int.less, ts_diff, ts_half, ts_modulus,
    Bool.or_eq_true, decide_eq_true_eq]
  omega

theorem node_ts_after_remove_eq {I : IDX} {T : threadinfo_t} {Rw : row_t I T}
    (w : world I T Rw) (value : Rw.R) (nts : kvtimestamp_t) :
    (apply_remove w value true (some nts)).2.2.1
      = some (if circular_int.less_equal nts
                  (apply_remove w value true (some nts)).2.2.2.q.qtimes_.ts = true
              then ((apply_remove w value true (some nts)).2.2.2.q.qtimes_.ts + 2) % ts_modulus
              else nts) := by
  simp only [apply_remove, Bool.true_eq_false, if_false]
  split <;> rfl

theorem greater_eq_not_less_equal (a b : kvtimestamp_t) :
    circular_int.greater a b = !circular_int.less_equal a b := by
  rw [Bool.eq_iff_iff]
  simp only [circular_int.greater, circular_int.less_equal, ts_diff, ts_half, ts_modulus,
    Bool.not_eq_true', Bool.or_eq_false_iff, decide_eq_true_eq, decide_eq_false_iff_not]
  omega

theorem greater_iff_less (a b : kvtimestamp_t) :
    circular_int.greater a b = true
      ↔ circular_int.less b a = true ∧ ts_diff a b ≠ ts_half := by
  rw [greater_eq_not_less_equal, Bool.not_eq_true', ← Bool.not_eq_true,
    less_equal_iff_not_less, not_not]

/-- C8: in `apply_remove` on an existing row with a node timestamp supplied,
if the node timestamp is not strictly greater than the newly assigned
`qtimes_.ts` in the half-range comparison, it becomes `qtimes_.ts + 2` modulo
`2^64`; if it is strictly greater, it is left unchanged. -/
theorem apply_remove_node_ts {I : IDX} {T : threadinfo_t} {Rw : row_t I T}
    (w : world I T Rw) (value : Rw.R) (nts : kvtimestamp_t) :
    (apply_remove w value true (some nts)).2.2.1
      = some (if circular_int.greater nts
                  (apply_remove w value true (some nts)).2.2.2.q.qtimes_.ts = true
              then nts
              else ((apply_remove w value true (some nts)).2.2.2.q.qtimes_.ts + 2)
                      % ts_modulus) := by
  rw [node_ts_after_remove_eq, greater_eq_not_less_equal]
  cases circular_int.less_equal nts (apply_remove w value true (some nts)).2.2.2.q.qtimes_.ts
    <;> rfl

/-- C9 (amended): in `apply_remove` on an existing row, for every supplied
node timestamp that is not strictly greater than the newly assigned
`qtimes_.ts` (half-range comparison), the node timestamp after the call is
`qtimes_.ts + 2` modulo `2^64`. -/
theorem node_ts_bumped_if_not_greater {I : IDX} {T : threadinfo_t} {Rw : row_t I T}
    (w : world I T Rw) (value : Rw.R) (nts : kvtimestamp_t)
    (h : circular_int.greater nts (apply_remove w value true (some nts)).2.2.2.q.qtimes_.ts
          = false) :
    (apply_remove w value true (some nts)).2.2.1
      = some (((apply_remove w value true (some nts)).2.2.2.q.qtimes_.ts + 2) % ts_modulus) := by
  rw [node_ts_after_remove_eq, if_pos]
  rw [greater_eq_not_less_equal] at h
  simpa using h

/-- Witness of C9: the removal is assigned timestamp 11; the node timestamp
11, equal to it, is moved to 13. -/
theorem node_ts_bumped_if_not_greater_witness :
    circular_int.greater 11 (apply_remove world0 row10 true (some 11)).2.2.2.q.qtimes_.ts
        = false
      ∧ (apply_remove world0 row10 true (some 11)).2.2.1
          = some (((apply_remove world0 row10 true (some 11)).2.2.2.q.qtimes_.ts + 2)
              % ts_modulus) :=
  ⟨by decide, node_ts_bumped_if_not_greater world0 row10 11 (by decide)⟩

/-- Counterexample to C9 as stated: the removal is assigned timestamp 11; the
node timestamp 16 does not strictly precede 11 (neither `less(16, 11)` nor
`greater(11, 16)` holds), and it is left at 16, not set to 13. -/
theorem later_node_ts_is_kept :
    (apply_remove world0 row10 true (some 16)).2.2.2.q.qtimes_.ts = 11
      ∧ circular_int.less 16 11 = false
      ∧ circular_int.greater 11 16 = false
      ∧ (apply_remove world0 row10 true (some 16)).2.2.1 = some 16
      ∧ (apply_remove world0 row10 true (some 16)).2.2.1 ≠ some ((11 + 2) % ts_modulus) := by
  refine ⟨by decide, by decide, by decide, by decide, by decide⟩

/-! ## Result emission -/

theorem emit_all_columns {I : IDX} {T : threadinfo_t} (Rw : row_t I T) (w : world I T Rw)
    (row : Rw.R) (hf : w.q.f_.length = 0) :
    ({ w with q := emit Rw w.q row } : world I T Rw)
      = w.set_kvout (w.q.kvout_ ++ short_bytes (to_short (Rw.ncol row))
          ++ entries_bytes (fun i : Nat => str_bytes (Rw.col row (i : Int)))
              (List.range (Rw.ncol row))) := by
  unfold emit world.set_kvout
  rw [if_pos hf]
  simp only []
  rw [foldl_range_cols (fun i : Nat => str_bytes (Rw.col row (i : Int)))
    (fun (o : kvout) (i : Nat) => kvwrite_str o (Rw.col row (i : Int))) (fun o i => rfl)]
  rfl

theorem emit_field_list {I : IDX} {T : threadinfo_t} (Rw : row_t I T) (w : world I T Rw)
    (row : Rw.R) (hf : w.q.f_.length ≠ 0) :
    ({ w with q := emit Rw w.q row } : world I T Rw)
      = w.set_kvout (w.q.kvout_ ++ short_bytes (to_short w.q.f_.length)
          ++ entries_bytes (fun fid => str_bytes (Rw.col_field row fid)) w.q.f_) := by
  unfold emit world.set_kvout
  rw [if_neg hf]
  simp only []
  rw [foldl_range_entries (fun fid => str_bytes (Rw.col_field row fid)) w.q.f_ _
    (fun o i h => by simp only [List.getElem?_eq_getElem h, kvwrite_str]) _ w.q.f_.length
    (le_refl _), List.take_length]
  rfl

theorem emitrow_of_get {I : IDX} {T : threadinfo_t} {Rw : row_t I T} (w : world I T Rw)
    (v : Rw.R) (hq : w.q.qt_ = QT_Get) (hm : Rw.row_is_marker v = false) :
    emitrow w v = some (true, { w with q := emit Rw w.q v }) := by
  unfold emitrow
  rw [hm, hq]
  rfl

theorem emitrow_count_32768 {I : IDX} {T : threadinfo_t} {Rw : row_t I T} (w : world I T Rw)
    (v : Rw.R) (hq : w.q.qt_ = QT_Get) (hm : Rw.row_is_marker v = false)
    (hf : w.q.f_.length = 0) (hout : w.q.kvout_ = []) (hn : Rw.ncol v = 32768) :
    (emitrow w v).bind (fun p => (KVR_short p.2.q.kvout_).map Prod.fst) = some (-32768) := by
  rw [emitrow_of_get w v hq hm, Option.some_bind, emit_all_columns Rw w v hf, hout, hn,
    to_short_32768]
  simp only [world.set_kvout, List.nil_append]
  rw [KVR_short_short_bytes (-32768) (by decide) (by decide)]
  rfl

theorem short_bytes_to_short (x : Int) : short_bytes (to_short x) = short_bytes x := by
  have h : to_short x % 65536 = x % 65536 := by
    unfold to_short
    split <;> omega
  unfold short_bytes
  rw [h]

theorem emitrow_get_bytes {I : IDX} {T : threadinfo_t} {Rw : row_t I T} (w : world I T Rw)
    (v : Rw.R) (hq : w.q.qt_ = QT_Get) (hm : Rw.row_is_marker v = false) :
    emitrow w v
      = some (true, w.set_kvout
          (if w.q.f_.length = 0 then
            w.q.kvout_ ++ short_bytes (Rw.ncol v : Int)
              ++ entries_bytes (fun i : Nat => str_bytes (Rw.col v (i : Int)))
                  (List.range (Rw.ncol v))
          else
            w.q.kvout_ ++ short_bytes (w.q.f_.length : Int)
              ++ entries_bytes (fun fid => str_bytes (Rw.col_field v fid)) w.q.f_)) := by
  rw [emitrow_of_get w v hq hm]
  by_cases hf : w.q.f_.length = 0
  · rw [emit_all_columns Rw w v hf, if_pos hf, short_bytes_to_short]
  · rw [emit_field_list Rw w v hf, if_neg hf, short_bytes_to_short]

theorem count_read_back (out : kvout) (n : Nat) (h : n ≤ 32767) (rest : List Byte) :
    (KVR_short ((out ++ short_bytes (n : Int) ++ rest).drop out.length)).map Prod.fst
      = some (n : Int) := by
  rw [List.append_assoc, List.drop_left, KVR_short_short_bytes (n : Int) (by omega) (by omega)]
  rfl

/-- C10 (amended): result emission for Get. For a query of type `QT_Get`
and a row that is not a marker, `emitrow` returns `true` and changes nothing
but the sink, to which it appends: when the field list is empty, the two
bytes of `(short) ncol` followed by every column `col(0), ..., col(ncol-1)`
as a length-prefixed string, in column order, the count read back from the
two bytes being the column count when the row has at most 32767 columns;
when the field list is `[f1, ..., fk]` with `k ≥ 1`, the two bytes of
`(short) k` followed by `col(f1), ..., col(fk)` in field-list order, whatever
the number of columns of the row, the count read back being `k` when
`k ≤ 32767`. -/
theorem emitrow_get {I : IDX} {T : threadinfo_t} {Rw : row_t I T} (w : world I T Rw)
    (v : Rw.R) (hq : w.q.qt_ = QT_Get) (hm : Rw.row_is_marker v = false) :
    emitrow w v
        = some (true, w.set_kvout
            (if w.q.f_.length = 0 then
              w.q.kvout_ ++ short_bytes (Rw.ncol v : Int)
                ++ entries_bytes (fun i : Nat => str_bytes (Rw.col v (i : Int)))
                    (List.range (Rw.ncol v))
            else
              w.q.kvout_ ++ short_bytes (w.q.f_.length : Int)
                ++ entries_bytes (fun fid => str_bytes (Rw.col_field v fid)) w.q.f_))
      ∧ (w.q.f_.length = 0 → Rw.ncol v ≤ 32767 →
          (emitrow w v).bind
              (fun p => (KVR_short (p.2.q.kvout_.drop w.q.kvout_.length)).map Prod.fst)
            = some (Rw.ncol v : Int))
      ∧ (w.q.f_.length ≠ 0 → w.q.f_.length ≤ 32767 →
          (emitrow w v).bind
              (fun p => (KVR_short (p.2.q.kvout_.drop w.q.kvout_.length)).map Prod.fst)
            = some (w.q.f_.length : Int)) := by
  refine ⟨emitrow_get_bytes w v hq hm, ?_, ?_⟩
  · intro hf hn
    rw [emitrow_get_bytes w v hq hm, if_pos hf, Option.some_bind]
    exact count_read_back _ _ hn _
  · intro hf hk
    rw [emitrow_get_bytes w v hq hm, if_neg hf, Option.some_bind]
    exact count_read_back _ _ hk _

/-- Witness of C10: a get with the field list `[2, 0]` on the row `row10`
writes the count 2, then column 2 (`"e"`), then column 0 (`"a"`); on the row
`wide_row` of 32768 columns the count read back is 2 as well; a get with the
empty field list on `row10` writes the count 3. -/
theorem emitrow_get_witness :
    get_world_fields.q.qt_ = QT_Get ∧ array_rows.row_is_marker row10 = false
      ∧ array_rows.row_is_marker wide_row = false
      ∧ get_world_fields.q.f_.length ≠ 0 ∧ get_world_fields.q.f_.length ≤ 32767
      ∧ array_rows.ncol wide_row = 32768
      ∧ get_world.q.qt_ = QT_Get ∧ get_world.q.f_.length = 0 ∧ array_rows.ncol row10 ≤ 32767
      ∧ (emitrow get_world_fields row10).map (fun p => p.2.q.kvout_)
          = some [2, 0, 1, 0, 0, 0, 101, 1, 0, 0, 0, 97]
      ∧ (emitrow get_world_fields row10).bind
            (fun p => (KVR_short (p.2.q.kvout_.drop get_world_fields.q.kvout_.length)).map
              Prod.fst)
          = some ((get_world_fields.q.f_.length : Nat) : Int)
      ∧ (emitrow get_world_fields wide_row).bind
            (fun p => (KVR_short (p.2.q.kvout_.drop get_world_fields.q.kvout_.length)).map
              Prod.fst)
          = some ((get_world_fields.q.f_.length : Nat) : Int)
      ∧ (emitrow get_world row10).bind
            (fun p => (KVR_short (p.2.q.kvout_.drop get_world.q.kvout_.length)).map Prod.fst)
          = some ((array_rows.ncol row10 : Nat) : Int) :=
  ⟨by decide, by decide, by decide, by decide, by decide, List.length_replicate _ _,
    by decide, by decide, by decide, by decide,
    (emitrow_get get_world_fields row10 (by decide) (by decide)).2.2 (by decide) (by decide),
    (emitrow_get get_world_fields wide_row (by decide) (by decide)).2.2 (by decide) (by decide),
    (emitrow_get get_world row10 (by decide) (by decide)).2.1 (by decide) (by decide)⟩

/-- Counterexample to C10 as stated: for a row with 32768 columns and an
empty field list, the count `emitrow` writes is `(short) 32768`; read back
as the 16-bit count it is `-32768`, not the column count. -/
theorem emitrow_count_wraps_at_32768 :
    get_world.q.qt_ = QT_Get ∧ array_rows.row_is_marker wide_row = false
      ∧ get_world.q.f_ = [] ∧ array_rows.ncol wide_row = 32768
      ∧ (emitrow get_world wide_row).bind (fun p => (KVR_short p.2.q.kvout_).map Prod.fst)
          = some (-32768) :=
  ⟨by decide, by decide, rfl, List.length_replicate _ _,
    emitrow_count_32768 get_world wide_row (by decide) (by decide) rfl rfl
      (List.length_replicate _ _)⟩

/-! ## Scans -/

theorem emit_eq_set_kvout {I : IDX} {T : threadinfo_t} (Rw : row_t I T) (q : query I)
    (row : Rw.R) : emit Rw q row = { q with kvout_ := (emit Rw q row).kvout_ } := by
  unfold emit
  split <;> rfl

theorem scanemit_marker {I : IDX} {T : threadinfo_t} {Rw : row_t I T} (w : world I T Rw)
    (k : Str) (v : Rw.R) (hm : Rw.row_is_marker v = true) : scanemit w k v = some (true, w) := by
  unfold scanemit
  rw [if_pos hm]

theorem drive_scan_cons {I : IDX} {T : threadinfo_t} {Rw : row_t I T} (w : world I T Rw)
    (p : Str × Rw.R) (rest : List (Str × Rw.R)) :
    drive_scan w (p :: rest)
      = match scanemit w p.1 p.2 with
        | none => none
        | some (false, w1) => some ([false], w1)
        | some (true, w1) =>
          match drive_scan w1 rest with
          | none => none
          | some (rs, w2) => some (true :: rs, w2) := rfl

theorem begin_scan_some {I : IDX} (q : query I) (startkey : Str) (npairs : Int) (req : Str)
    (kv : kvout) (q1 : query I) (hb : begin_scan q startkey npairs req kv = some q1) :
    0 < npairs ∧ q1.qt_ = QT_Scan
      ∧ q1.scan_npairs_ = npairs.toNat % 18446744073709551616 ∧ q1.kvout_ = kv := by
  unfold begin_scan at hb
  split at hb
  · rename_i hpos
    split at hb
    · exact absurd hb (by simp)
    · have h := Option.some.inj hb
      subst h
      exact ⟨hpos, rfl, rfl, rfl⟩
  · exact absurd hb (by simp)

theorem scanemit_checkpoint {I : IDX} {T : threadinfo_t} {Rw : row_t I T} (w : world I T Rw)
    (k : Str) (v : Rw.R) (hm : Rw.row_is_marker v = false) (hq : w.q.qt_ = QT_Ckp_Scan) :
    scanemit w k v
      = if w.q.endkey_.len ≠ 0 ∧ bytes_lt k.s w.q.endkey_.s = false then some (false, w)
        else some (true, w.record (event.checkpoint1 w.q.ck_ k v)) := by
  unfold scanemit
  rw [hm, hq]
  rfl

theorem drive_scan_checkpoint_keys {I : IDX} {T : threadinfo_t} {Rw : row_t I T}
    (pairs : List (Str × Rw.R)) :
    ∀ (w w1 : world I T Rw) (rs : List Bool), w.q.qt_ = QT_Ckp_Scan →
      drive_scan w pairs = some (rs, w1) →
      ∃ evs, w1.trace = w.trace ++ evs
        ∧ ∀ k ∈ evs.filterMap event.checkpoint_key,
            w.q.endkey_.len ≠ 0 → bytes_lt k.s w.q.endkey_.s = true := by
  induction pairs with
  | nil =>
    intro w w1 rs _ hd
    have h := Option.some.inj hd
    refine ⟨[], ?_, by simp⟩
    rw [← (Prod.mk.inj h).2, List.append_nil]
  | cons p rest ih =>
    intro w w1 rs hq hd
    rw [drive_scan_cons] at hd
    by_cases hm : Rw.row_is_marker p.2 = true
    · rw [scanemit_marker w p.1 p.2 hm] at hd
      simp only [] at hd
      cases hr : drive_scan w rest with
      | none => rw [hr] at hd; exact absurd hd (by simp)
      | some r =>
        rw [hr] at hd
        have h := Option.some.inj hd
        exact ih w w1 r.1 hq (by rw [hr, ← (Prod.mk.inj h).2])
    · have hm1 : Rw.row_is_marker p.2 = false := by simpa using hm
      rw [scanemit_checkpoint w p.1 p.2 hm1 hq] at hd
      by_cases hb : w.q.endkey_.len ≠ 0 ∧ bytes_lt p.1.s w.q.endkey_.s = false
      · rw [if_pos hb] at hd
        have h := Option.some.inj hd
        refine ⟨[], ?_, by simp⟩
        rw [← (Prod.mk.inj h).2, List.append_nil]
      · rw [if_neg hb] at hd
        simp only [] at hd
        cases hr : drive_scan (w.record (event.checkpoint1 w.q.ck_ p.1 p.2)) rest with
        | none => rw [hr] at hd; exact absurd hd (by simp)
        | some r =>
          rw [hr] at hd
          have h := Option.some.inj hd
          obtain ⟨evs, he1, he2⟩ :=
            ih (w.record (event.checkpoint1 w.q.ck_ p.1 p.2)) w1 r.1 hq
              (by rw [hr, ← (Prod.mk.inj h).2])
          refine ⟨event.checkpoint1 w.q.ck_ p.1 p.2 :: evs, ?_, ?_⟩
          · rw [he1]
            simp [world.record]
          · intro k hk hne
            simp only [List.filterMap_cons, event.checkpoint_key, List.mem_cons] at hk
            rcases hk with hk | hk
            · rw [hk]
              by_contra hlt
              exact hb ⟨hne, by simpa using hlt⟩
            · exact he2 k hk hne

/-- C12: after `begin_checkpoint(ck, start, end)`, `scanemit` on a row that
is not a marker returns `false` without calling the checkpoint sink when
`end` is not empty and `key >= end`, and otherwise calls `checkpoint1(ck,
key, row)` once and returns `true`; with an empty end key it never returns
`false`; driving it over any sequence, every key handed to the sink is below
a non-empty end key; over the keys `"a"`, `"k"`, `"n"` with end key `"m"` the
sink is called for `"a"` and `"k"` only and the scan then stops. -/
theorem checkpoint_scan_bound {I : IDX} {T : threadinfo_t} {Rw : row_t I T}
    (w : world I T Rw) (q0 : query I) (ck : Nat) (startkey endkey k : Str) (v : Rw.R)
    (pairs : List (Str × Rw.R))
    (hw : w.q = begin_checkpoint q0 ck startkey endkey)
    (hm : Rw.row_is_marker v = false) :
    (endkey.len ≠ 0 ∧ bytes_lt k.s endkey.s = false → scanemit w k v = some (false, w))
      ∧ (¬ (endkey.len ≠ 0 ∧ bytes_lt k.s endkey.s = false) →
          scanemit w k v = some (true, w.record (event.checkpoint1 ck k v)))
      ∧ (endkey.len = 0 → ∀ (k1 : Str) (v1 : Rw.R), ∃ w1, scanemit w k1 v1 = some (true, w1))
      ∧ (endkey.len ≠ 0 → ∀ rs w1, drive_scan w pairs = some (rs, w1) →
          ∀ k1 ∈ (events_since w w1).filterMap event.checkpoint_key,
            bytes_lt k1.s endkey.s = true)
      ∧ (drive_scan ckp_world akn_pairs).map
            (fun r => (r.1, (events_since ckp_world r.2).filterMap event.checkpoint_key))
          = some ([true, true, false], [str1 97, str1 107]) := by
  have hq : w.q.qt_ = QT_Ckp_Scan := by rw [hw]; rfl
  have he : w.q.endkey_ = endkey := by rw [hw]; rfl
  have hc : w.q.ck_ = ck := by rw [hw]; rfl
  refine ⟨?_, ?_, ?_, ?_, by decide⟩
  · intro hb
    rw [scanemit_checkpoint w k v hm hq, he, if_pos hb]
  · intro hb
    rw [scanemit_checkpoint w k v hm hq, he, hc, if_neg hb]
  · intro h0 k1 v1
    by_cases hm1 : Rw.row_is_marker v1 = true
    · exact ⟨w, scanemit_marker w k1 v1 hm1⟩
    · refine ⟨w.record (event.checkpoint1 ck k1 v1), ?_⟩
      rw [scanemit_checkpoint w k1 v1 (by simpa using hm1) hq, he, hc, if_neg (fun hb => hb.1 h0)]
  · intro hne rs w1 hd k1 hk
    obtain ⟨evs, he1, he2⟩ := drive_scan_checkpoint_keys pairs w w1 rs hq hd
    rw [events_since, he1, drop_trace_append] at hk
    have := he2 k1 hk
    rw [he] at this
    exact this hne

/-- Witness of C12: the checkpoint scan with end key `"m"` at the key `"n"`
stops without a call of the sink. -/
theorem checkpoint_scan_bound_witness :
    ckp_world.q = begin_checkpoint query0 5 (str1 97) (str1 109)
      ∧ array_rows.row_is_marker row10 = false
      ∧ ((str1 109).len ≠ 0 ∧ bytes_lt (str1 110).s (str1 109).s = false)
      ∧ scanemit ckp_world (str1 110) row10 = some (false, ckp_world) :=
  ⟨rfl, by decide, by decide,
    (checkpoint_scan_bound ckp_world query0 5 (str1 97) (str1 109) (str1 110) row10 akn_pairs
      rfl (by decide)).1 (by decide)⟩

/-- C13: a marker row is never emitted as data. For every state and every
marker row, `emitrow` returns `false` and `scanemit` returns `true`, both
leaving the whole state as it is: the output sink, the calls of the
checkpoint sink, the remaining scan count and `val_`. -/
theorem marker_row_not_emitted {I : IDX} {T : threadinfo_t} {Rw : row_t I T}
    (w : world I T Rw) (k : Str) (v : Rw.R) (hm : Rw.row_is_marker v = true) :
    emitrow w v = some (false, w) ∧ scanemit w k v = some (true, w) := by
  constructor
  · unfold emitrow
    rw [if_pos hm]
  · exact scanemit_marker w k v hm

/-- Witness of C13: the marker `marker10` in a get and in a checkpoint scan. -/
theorem marker_row_not_emitted_witness :
    array_rows.row_is_marker marker10 = true
      ∧ emitrow ckp_world marker10 = some (false, ckp_world)
      ∧ scanemit ckp_world (str1 97) marker10 = some (true, ckp_world) :=
  ⟨by decide, marker_row_not_emitted ckp_world (str1 97) marker10 (by decide)⟩

/-! ## The one-shot put request -/

theorem make_put_col_request_eq (I : IDX) (out : kvout) (fid : I.field_t) (v : Str) :
    make_put_col_request I out fid v
      = [] ++ short_bytes (([make_cell fid v] : change_t I).length : Int)
          ++ entries_bytes (fun x : cell_t I => I.kvwrite_field x.c_fid ++ str_bytes x.c_value)
              [make_cell fid v] := by
  simp only [make_put_col_request, kvwrite_str, KVW_short, entries_bytes, make_cell,
    List.length_singleton, Nat.cast_one, List.append_nil, List.append_assoc]

/-- C14: the one-shot put-request helper agrees with the general codec. For
every field id and value, the bytes `make_put_col_request` returns (whatever
the buffer held before the reset) are what `kvwrite_change` writes to an
empty sink for the one-cell change set `[(fid, v)]`, and, the field
encoding reading back what it writes, `parse_change` of these bytes yields
exactly `[(fid, v)]`. -/
theorem make_put_col_request_agrees (I : IDX) (hI : I.lawful) (out : kvout) (fid : I.field_t)
    (v : Str) :
    kvwrite_change I [] [make_cell fid v]
        = kvw_outcome.returned 0 (make_put_col_request I out fid v)
      ∧ parse_change I (make_put_col_request I out fid v) = some (0, [make_cell fid v]) := by
  constructor
  · rw [make_put_col_request_eq]
    exact kvwrite_change_sorted I [] [make_cell fid v] (List.chain'_singleton _)
      (by rw [List.length_singleton]; omega)
  · rw [make_put_col_request_eq, List.nil_append]
    exact parse_change_entries I hI [make_cell fid v] (by rw [List.length_singleton]; omega)

/-- Witness of C14: field 5 with the value `"z"`, into a buffer that held
three bytes. -/
theorem make_put_col_request_agrees_witness :
    array_index.lawful
      ∧ kvwrite_change array_index [] [make_cell (fld 5) (str1 122)]
          = kvw_outcome.returned 0
              (make_put_col_request array_index [byte 1, byte 2, byte 3] (fld 5) (str1 122))
      ∧ parse_change array_index
            (make_put_col_request array_index [byte 1, byte 2, byte 3] (fld 5) (str1 122))
          = some (0, [make_cell (fld 5) (str1 122)]) :=
  ⟨array_index_lawful,
    make_put_col_request_agrees array_index array_index_lawful [byte 1, byte 2, byte 3] (fld 5)
      (str1 122)⟩

/-! ## Slot installation, operation tags and the single-column get -/

/-- C15: in `apply_put` of a live query on an existing row that is not a
marker, with `updated = old_value->update(c_, qtimes_.ts, *ti)`: if `updated`
is the same row object, the slot is left as it is and no deferred
destruction is scheduled; if it is a different object, the slot is set to
`updated` and the calls made hold exactly one deferred destruction,
`old_value->deallocate_rcu_after_update(c_, *ti)`, and no plain
`deallocate_rcu`. -/
theorem apply_put_slot_installation {I : IDX} {T : threadinfo_t} {Rw : row_t I T}
    (w : world I T Rw) (old_value : Rw.R) (h : w.q.qt_ < QT_MinReplay)
    (hm : Rw.row_is_marker old_value = false) :
    (Rw.update old_value w.q.c_ (T.update_timestamp_after w.ti (Rw.ts_ old_value)).1
          (T.update_timestamp_after w.ti (Rw.ts_ old_value)).2 = old_value →
        ∃ w1, apply_put w old_value true = some (result_t.Updated, old_value, w1)
          ∧ (events_since w w1).filter event.is_deallocate = [])
      ∧ (Rw.update old_value w.q.c_ (T.update_timestamp_after w.ti (Rw.ts_ old_value)).1
            (T.update_timestamp_after w.ti (Rw.ts_ old_value)).2 ≠ old_value →
          ∃ w1, apply_put w old_value true
              = some (result_t.Updated,
                  Rw.update old_value w.q.c_ (T.update_timestamp_after w.ti (Rw.ts_ old_value)).1
                    (T.update_timestamp_after w.ti (Rw.ts_ old_value)).2, w1)
            ∧ (events_since w w1).filter event.is_deallocate
                = [event.deallocate_rcu_after_update old_value w.q.c_]) := by
  constructor
  · intro hu
    unfold apply_put
    rw [if_pos h]
    simp only [hm, Bool.true_eq_false, if_false, Bool.false_eq_true, assign_timestamp_after,
      acquire_log_ti, acquire_log_c, hu, ne_eq, not_true_eq_false]
    refine ⟨_, rfl, ?_⟩
    simp only [events_since, acquire_log_trace, List.append_assoc, drop_trace_append]
    split <;> simp [event.is_deallocate]
  · intro hu
    unfold apply_put
    rw [if_pos h]
    simp only [hm, Bool.true_eq_false, if_false, Bool.false_eq_true, assign_timestamp_after,
      acquire_log_ti, acquire_log_c, hu, ne_eq, not_false_eq_true, if_true]
    refine ⟨_, rfl, ?_⟩
    simp only [events_since, acquire_log_trace, List.append_assoc, drop_trace_append]
    split <;> simp [event.is_deallocate]

/-- Witness of C15: the put of `world0` on `row10`, whose `update` builds a
new row. -/
theorem apply_put_slot_installation_witness :
    world0.q.qt_ < QT_MinReplay ∧ array_rows.row_is_marker row10 = false
      ∧ array_rows.update row10 world0.q.c_
            (counter_thread.update_timestamp_after world0.ti (array_rows.ts_ row10)).1
            (counter_thread.update_timestamp_after world0.ti (array_rows.ts_ row10)).2 ≠ row10
      ∧ ∃ w1, apply_put world0 row10 true
            = some (result_t.Updated,
                array_rows.update row10 world0.q.c_
                  (counter_thread.update_timestamp_after world0.ti (array_rows.ts_ row10)).1
                  (counter_thread.update_timestamp_after world0.ti (array_rows.ts_ row10)).2, w1)
          ∧ (events_since world0 w1).filter event.is_deallocate
              = [event.deallocate_rcu_after_update row10 world0.q.c_] :=
  ⟨by decide, by decide, by decide,
    (apply_put_slot_installation world0 row10 (by decide) (by decide)).2 (by decide)⟩

theorem begin_get_type {I : IDX} (q : query I) (key req : Str) (kv : kvout) (qg : query I)
    (hg : begin_get q key req kv = some qg) : qg.qt_ = QT_Get := by
  unfold begin_get at hg
  split at hg
  · exact absurd hg (by simp)
  · have h := Option.some.inj hg
    subst h
    rfl

theorem begin_put_type {I : IDX} (q : query I) (key req : Str) (qp : query I)
    (hp : begin_put q key req = some qp) : qp.qt_ = QT_Put := by
  unfold begin_put at hp
  split at hp
  · exact absurd hp (by simp)
  · have h := Option.some.inj hp
    subst h
    rfl

theorem to_int_of_range (x : Int) (h1 : -2147483648 ≤ x) (h2 : x ≤ 2147483647) :
    to_int x = x := by
  unfold to_int
  split <;> omega

theorem begin_get1_type {I : IDX} (q : query I) (key : Str) (col : Int) (h1 : 0 ≤ col)
    (h2 : col ≤ 2147483643) : (begin_get1 q key col).qt_ = QT_Get1_Col0 + col := by
  show to_int (QT_Get1_Col0 + col) = QT_Get1_Col0 + col
  apply to_int_of_range
  · simp only [QT_Get1_Col0]
    omega
  · simp only [QT_Get1_Col0]
    omega

/-- C16 (amended): the values of `query_type()` set by `begin_get`,
`begin_scan`, `begin_checkpoint`, `begin_put` and `begin_remove` are
`QT_Get`, `QT_Scan`, `QT_Ckp_Scan`, `QT_Put`, `QT_Remove`, pairwise distinct
and all below `QT_MinReplay`; for every column index
`0 <= col <= 2147483643`, the largest for which `QT_Get1_Col0 + col` fits an
`int`, `begin_get1(key, col)` sets `QT_Get1_Col0 + col`, which differs from
the values set by `begin_get`, `begin_scan` and `begin_checkpoint`, and which
is below `QT_MinReplay` when `col <= 2`. -/
theorem query_type_tags {I : IDX} (q : query I) (key startkey endkey req_f req_c : Str)
    (kv : kvout) (npairs : Int) (ck : Nat) (col : Int) :
    (∀ qg, begin_get q key req_f kv = some qg → query_type qg = QT_Get)
      ∧ (∀ qs, begin_scan q startkey npairs req_f kv = some qs → query_type qs = QT_Scan)
      ∧ query_type (begin_checkpoint q ck startkey endkey) = QT_Ckp_Scan
      ∧ (∀ qp, begin_put q key req_c = some qp → query_type qp = QT_Put)
      ∧ query_type (begin_remove q key) = QT_Remove
      ∧ [QT_Get, QT_Scan, QT_Ckp_Scan, QT_Put, QT_Remove].Nodup
      ∧ (∀ t ∈ [QT_Get, QT_Scan, QT_Ckp_Scan, QT_Put, QT_Remove], t < QT_MinReplay)
      ∧ (0 ≤ col → col ≤ 2147483643 →
          query_type (begin_get1 q key col) = QT_Get1_Col0 + col
            ∧ query_type (begin_get1 q key col) ∉ [QT_Get, QT_Scan, QT_Ckp_Scan]
            ∧ (col ≤ 2 → query_type (begin_get1 q key col) < QT_MinReplay)) := by
  refine ⟨fun qg hg => begin_get_type q key req_f kv qg hg,
    fun qs hs => (begin_scan_some q startkey npairs req_f kv qs hs).2.1, rfl,
    fun qp hp => begin_put_type q key req_c qp hp, rfl, by decide, by decide, ?_⟩
  intro h1 h2
  have ht : query_type (begin_get1 q key col) = QT_Get1_Col0 + col :=
    begin_get1_type q key col h1 h2
  refine ⟨ht, ?_, ?_⟩
  · rw [ht]
    simp only [QT_Get1_Col0, QT_Get, QT_Scan, QT_Ckp_Scan,
      List.mem_cons, List.mem_singleton, List.not_mem_nil, or_false, not_or]
    omega
  · intro hc
    rw [ht]
    simp only [QT_Get1_Col0, QT_MinReplay]
    omega

/-- Witness of C16: the tags set on `query0`, the single-column get being of
column 2. -/
theorem query_type_tags_witness :
    begin_get query0 (str1 97) req_empty [] = some { query0 with qt_ := QT_Get, key_ := str1 97 }
      ∧ begin_scan query0 (str1 97) 2 req_empty [] = some scan_query
      ∧ begin_put query0 (str1 97) req_empty = some { query0 with qt_ := QT_Put, key_ := str1 97 }
      ∧ (0 : Int) ≤ 2 ∧ (2 : Int) ≤ 2147483643
      ∧ query_type ({ query0 with qt_ := QT_Get, key_ := str1 97 } : query array_index) = QT_Get
      ∧ query_type scan_query = QT_Scan
      ∧ query_type ({ query0 with qt_ := QT_Put, key_ := str1 97 } : query array_index) = QT_Put
      ∧ query_type (begin_get1 query0 (str1 97) 2) = QT_Get1_Col0 + 2
      ∧ query_type (begin_get1 query0 (str1 97) 2) ∉ [QT_Get, QT_Scan, QT_Ckp_Scan]
      ∧ query_type (begin_get1 query0 (str1 97) 2) < QT_MinReplay :=
  ⟨rfl, rfl, rfl, by decide, by decide,
    (query_type_tags query0 (str1 97) (str1 97) (str1 109) req_empty req_empty [] 2 5 2).1
      _ rfl,
    (query_type_tags query0 (str1 97) (str1 97) (str1 109) req_empty req_empty [] 2 5 2).2.1
      _ rfl,
    (query_type_tags query0 (str1 97) (str1 97) (str1 109) req_empty req_empty [] 2 5 2).2.2.2.1
      _ rfl,
    ((query_type_tags query0 (str1 97) (str1 97) (str1 109) req_empty req_empty [] 2 5 2).2.2.2.2.2.2.2
      (by decide) (by decide)).1,
    ((query_type_tags query0 (str1 97) (str1 97) (str1 109) req_empty req_empty [] 2 5 2).2.2.2.2.2.2.2
      (by decide) (by decide)).2.1,
    ((query_type_tags query0 (str1 97) (str1 97) (str1 109) req_empty req_empty [] 2 5 2).2.2.2.2.2.2.2
      (by decide) (by decide)).2.2 (by decide)⟩

/-- Counterexample to C16 as stated: `begin_get1(key, 0)` sets the value 4,
which is the value `begin_put` sets; `begin_get1(key, 1)` sets 5, the value
`begin_remove` sets; and `begin_get1(key, 3)` sets 7, which is
`QT_MinReplay`. -/
theorem get1_tag_collides :
    (0 : Int) ≤ 0
      ∧ (begin_put query0 (str1 97) req_empty).map query_type
          = some (query_type (begin_get1 query0 (str1 97) 0))
      ∧ query_type (begin_get1 query0 (str1 97) 1) = query_type (begin_remove query0 (str1 97))
      ∧ QT_MinReplay ≤ query_type (begin_get1 query0 (str1 97) 3) := by
  refine ⟨by decide, by decide, by decide, by decide⟩

/-- C17 (amended): after `begin_get1(key, i)` with a column index
`0 <= i <= 2147483643`, `emitrow` on a row that is not a marker returns `true`
and changes nothing but `val_`, which becomes the row's column `i`:
`get1_value()` is then `col(i)`, the output sink and the calls made are as
before. After `begin_get`, `emitrow` on such a row returns `true`, the query
being what `emit` leaves when run on the helper's snapshot of the row. -/
theorem single_column_get {I : IDX} {T : threadinfo_t} {Rw : row_t I T} (w : world I T Rw)
    (key req : Str) (kv : kvout) (col : Int) (v : Rw.R)
    (hm : Rw.row_is_marker v = false) :
    (0 ≤ col → col ≤ 2147483643 →
        emitrow (w.with_query (begin_get1 w.q key col)) v
            = some (true, w.with_query { begin_get1 w.q key col with val_ := Rw.col v col })
          ∧ (emitrow (w.with_query (begin_get1 w.q key col)) v).map (fun r => get1_value r.2.q)
              = some (Rw.col v col)
          ∧ (emitrow (w.with_query (begin_get1 w.q key col)) v).map
                (fun r => (r.2.q.kvout_, r.2.trace))
              = some (w.q.kvout_, w.trace))
      ∧ (∀ qg, begin_get w.q key req kv = some qg →
          emitrow (w.with_query qg) v
            = some (true,
                w.with_query (emit Rw qg (query_helper.snapshot Rw v qg.f_ w.ti)))) := by
  constructor
  · intro hc1 hc2
    have ht : (w.with_query (begin_get1 w.q key col)).q.qt_ = QT_Get1_Col0 + col :=
      begin_get1_type w.q key col hc1 hc2
    have h1 : emitrow (w.with_query (begin_get1 w.q key col)) v
        = some (true, w.with_query { begin_get1 w.q key col with val_ := Rw.col v col }) := by
      unfold emitrow
      rw [hm]
      have hle : QT_Get1_Col0 ≤ (w.with_query (begin_get1 w.q key col)).q.qt_ := by
        rw [ht]
        omega
      have hsub : (w.with_query (begin_get1 w.q key col)).q.qt_ - QT_Get1_Col0 = col := by
        rw [ht]
        omega
      simp only [Bool.false_eq_true, if_false, if_pos hle, hsub]
      rfl
    refine ⟨h1, ?_, ?_⟩
    · rw [h1]
      rfl
    · rw [h1]
      rfl
  · intro qg hg
    exact emitrow_of_get (w.with_query qg) v (begin_get_type _ _ _ _ _ hg) hm

/-- Witness of C17: the single-column get of column 1 on `row10` stores
`"c"`; the general get runs `emit`. -/
theorem single_column_get_witness :
    (0 : Int) ≤ 1 ∧ (1 : Int) ≤ 2147483643 ∧ array_rows.row_is_marker row10 = false
      ∧ begin_get get_world.q (str1 97) req_empty []
          = some { get_world.q with qt_ := QT_Get, key_ := str1 97 }
      ∧ emitrow (get_world.with_query (begin_get1 get_world.q (str1 97) 1)) row10
          = some (true, get_world.with_query
              { begin_get1 get_world.q (str1 97) 1 with val_ := array_rows.col row10 1 })
      ∧ array_rows.col row10 1 = str1 99
      ∧ emitrow (get_world.with_query { get_world.q with qt_ := QT_Get, key_ := str1 97 }) row10
          = some (true, get_world.with_query
              (emit array_rows { get_world.q with qt_ := QT_Get, key_ := str1 97 }
                (query_helper.snapshot array_rows row10 get_world.q.f_ get_world.ti))) :=
  ⟨by decide, by decide, by decide, rfl,
    ((single_column_get get_world (str1 97) req_empty [] 1 row10 (by decide)).1
      (by decide) (by decide)).1,
    by decide,
    (single_column_get get_world (str1 97) req_empty [] 1 row10 (by decide)).2 _ rfl⟩

/-- Counterexample to C17 as stated: after `begin_get1(key, -3)` the tag is
`QT_Get1_Col0 - 3 = QT_Get`, and `emitrow` on the row `row10` runs `emit`: it
writes the three columns to the sink and leaves `val_` as it was, which is
not the column `col(-3)` of the row. After `begin_get1(key, 2147483647)` the
sum `QT_Get1_Col0 + 2147483647` does not fit the `int qt_`, the tag is
negative, and `emitrow` on `row10` fails `assert(qt_ == QT_Get)`: it does not
return `true`. -/
theorem get1_column_out_of_range :
    array_rows.row_is_marker row10 = false
      ∧ query_type (begin_get1 get_world.q (str1 97) (-3)) = QT_Get
      ∧ (emitrow (get_world.with_query (begin_get1 get_world.q (str1 97) (-3))) row10).map
            (fun r => (r.1, r.2.q.kvout_))
          = some (true, [3, 0, 1, 0, 0, 0, 97, 1, 0, 0, 0, 99, 1, 0, 0, 0, 101])
      ∧ get_world.q.kvout_ = []
      ∧ (emitrow (get_world.with_query (begin_get1 get_world.q (str1 97) (-3))) row10).map
            (fun r => get1_value r.2.q)
          ≠ some (array_rows.col row10 (-3))
      ∧ query_type (begin_get1 get_world.q (str1 97) 2147483647) = -2147483645
      ∧ (emitrow (get_world.with_query (begin_get1 get_world.q (str1 97) 2147483647))
            row10).map Prod.fst = none := by
  refine ⟨by decide, by decide, by decide, by decide, by decide, by decide, by decide⟩

/-! ## Version order, log coordination and the node timestamp -/

theorem log_coordinated_of {I : IDX} {T : threadinfo_t} {Rw : row_t I T}
    (w w1 : world I T Rw) (evs : List (event I Rw.R))
    (htrace : w1.trace = (acquire_log w).trace ++ evs)
    (hev : evs.filter event.is_log_acquire = [])
    (hepoch : w1.q.qtimes_.epoch = (acquire_log w).q.qtimes_.epoch) :
    log_coordinated w w1 := by
  unfold log_coordinated
  rw [events_since, htrace, hepoch, acquire_log_trace]
  constructor
  · intro hl
    rw [if_pos hl, List.append_assoc, drop_trace_append]
    refine ⟨⟨evs, rfl, hev⟩, ?_⟩
    unfold acquire_log
    rw [if_pos hl]
  · intro hl
    rw [if_neg (by rw [hl]; decide), List.append_nil, drop_trace_append]
    refine ⟨hev, ?_⟩
    unfold acquire_log
    rw [if_neg (by rw [hl]; decide)]

theorem apply_put_after_log {I : IDX} {T : threadinfo_t} {Rw : row_t I T}
    (w : world I T Rw) (value : Rw.R) (has_value : Bool) (h : w.q.qt_ < QT_MinReplay) :
    ∃ r evs, apply_put w value has_value = some r
      ∧ r.2.2.trace = (acquire_log w).trace ++ evs
      ∧ evs.filter event.is_log_acquire = []
      ∧ r.2.2.q.qtimes_.epoch = (acquire_log w).q.qtimes_.epoch := by
  unfold apply_put
  rw [if_pos h]
  cases has_value with
  | false =>
    refine ⟨_, ?_, rfl, ?_, ?_, rfl⟩
    rotate_left
    · simp only [apply_put_insert, assign_timestamp, List.append_assoc]
      exact rfl
    · exact rfl
  | true =>
    simp only [Bool.true_eq_false, if_false]
    by_cases hm : Rw.row_is_marker value = true
    · rw [if_pos hm]
      refine ⟨_, ?_, rfl, ?_, ?_, rfl⟩
      rotate_left
      · simp only [apply_put_insert, assign_timestamp, assign_timestamp_after,
          List.append_assoc]
        exact rfl
      · exact rfl
    · rw [if_neg hm]
      split
      · refine ⟨_, ?_, rfl, ?_, ?_, rfl⟩
        rotate_left
        · simp only [assign_timestamp_after, List.append_assoc]
          exact rfl
        · exact rfl
      · refine ⟨_, ?_, rfl, ?_, ?_, rfl⟩
        rotate_left
        · simp only [assign_timestamp_after, List.append_assoc]
          exact rfl
        · exact rfl

theorem apply_remove_after_log {I : IDX} {T : threadinfo_t} {Rw : row_t I T}
    (w : world I T Rw) (value : Rw.R) (node_ts : Option kvtimestamp_t) :
    ∃ evs, (apply_remove w value true node_ts).2.2.2.trace = (acquire_log w).trace ++ evs
      ∧ evs.filter event.is_log_acquire = []
      ∧ (apply_remove w value true node_ts).2.2.2.q.qtimes_.epoch
          = (acquire_log w).q.qtimes_.epoch := by
  refine ⟨?_, ?_, ?_, rfl⟩
  rotate_left
  · simp only [apply_remove, Bool.true_eq_false, if_false, assign_timestamp_after,
      List.append_assoc]
    exact rfl
  · exact rfl

/-- C19: log coordination. In `apply_put` of a live query, whatever the slot
holds, and in every `apply_remove` on an existing row: when the thread holds a
log handle, `log->acquire()` is called exactly once, as the first call made,
so before any timestamp is assigned, any row is built or updated and any
destruction is scheduled, and `qtimes_.epoch` becomes the global log epoch;
when the thread holds none, the log is not acquired and `qtimes_.epoch` is
unchanged. -/
theorem log_coordination {I : IDX} {T : threadinfo_t} {Rw : row_t I T}
    (w : world I T Rw) (value : Rw.R) (has_value : Bool) (node_ts : Option kvtimestamp_t) :
    (w.q.qt_ < QT_MinReplay →
        ∃ r, apply_put w value has_value = some r ∧ log_coordinated w r.2.2)
      ∧ log_coordinated w (apply_remove w value true node_ts).2.2.2 := by
  constructor
  · intro h
    obtain ⟨r, evs, h1, h2, h3, h4⟩ := apply_put_after_log w value has_value h
    exact ⟨r, h1, log_coordinated_of w r.2.2 evs h2 h3 h4⟩
  · obtain ⟨evs, h2, h3, h4⟩ := apply_remove_after_log w value node_ts
    exact log_coordinated_of w _ evs h2 h3 h4

/-- Witness of C19: the put and the removal of `world0`, whose thread holds
a log, on `row10`; the put and the removal of `world_nolog`, whose thread
holds none. -/
theorem log_coordination_witness :
    world0.q.qt_ < QT_MinReplay
      ∧ counter_thread.ti_log world0.ti = true
      ∧ (∃ r, apply_put world0 row10 true = some r ∧ log_coordinated world0 r.2.2)
      ∧ log_coordinated world0 (apply_remove world0 row10 true (some 16)).2.2.2
      ∧ world_nolog.q.qt_ < QT_MinReplay
      ∧ counter_thread.ti_log world_nolog.ti = false
      ∧ (∃ r, apply_put world_nolog row10 true = some r ∧ log_coordinated world_nolog r.2.2)
      ∧ log_coordinated world_nolog (apply_remove world_nolog row10 true (some 16)).2.2.2 :=
  ⟨by decide, by decide,
    (log_coordination world0 row10 true (some 16)).1 (by decide),
    (log_coordination world0 row10 true (some 16)).2,
    by decide, by decide,
    (log_coordination world_nolog row10 true (some 16)).1 (by decide),
    (log_coordination world_nolog row10 true (some 16)).2⟩

theorem bumped_node_ts_is_greater (ts : kvtimestamp_t) :
    circular_int.greater ((ts + 2) % ts_modulus) ts = true
      ∧ circular_int.less ts ((ts + 2) % ts_modulus) = true := by
  simp only [circular_int.greater, circular_int.less, ts_diff, ts_half, ts_modulus,
    decide_eq_true_eq]
  omega

/-- C20: after every `apply_remove` on an existing row with a node timestamp
supplied, the node timestamp is strictly greater than the removal's
`qtimes_.ts` in the half-range comparison (the signed difference is
positive, and `less(qtimes_.ts, node)` holds), whether it was bumped or not,
also when `qtimes_.ts + 2` wraps around `2^64`. -/
theorem node_ts_greater_after_remove {I : IDX} {T : threadinfo_t} {Rw : row_t I T}
    (w : world I T Rw) (value : Rw.R) (nts : kvtimestamp_t) :
    ∃ n1, (apply_remove w value true (some nts)).2.2.1 = some n1
      ∧ circular_int.greater n1 (apply_remove w value true (some nts)).2.2.2.q.qtimes_.ts = true
      ∧ circular_int.less (apply_remove w value true (some nts)).2.2.2.q.qtimes_.ts n1 = true := by
  rw [node_ts_after_remove_eq]
  by_cases hle : circular_int.less_equal nts
      (apply_remove w value true (some nts)).2.2.2.q.qtimes_.ts = true
  · rw [if_pos hle]
    exact ⟨_, rfl, bumped_node_ts_is_greater _⟩
  · rw [if_neg hle]
    have hg : circular_int.greater nts
        (apply_remove w value true (some nts)).2.2.2.q.qtimes_.ts = true := by
      rw [greater_eq_not_less_equal]
      simpa using hle
    exact ⟨_, rfl, hg, ((greater_iff_less _ _).mp hg).1⟩

end Kvrow
